import Mathlib

/-
Verification development for the mcf-problem-solver repository
(time-expanded timetable graph, DFS path enumerator, group solver,
simulated annealing optimizer).

Shallow embedding conventions:
* u64 values are modelled as `Nat`; where wrap-around of u64 arithmetic
  matters (`get_remaining_capacity`, `increase_utilization`) the modulus
  2^64 is written explicitly.
* `HashMap` iteration order in the source is unspecified; the embedding
  iterates association lists in insertion order.  The theorems proved
  below do not depend on the enumeration order.
* `sort_unstable_by_key` leaves the relative order of equal keys
  unspecified; the embedding uses a stable insertion sort, one admissible
  outcome.
* Functions whose Rust counterpart can panic (`expect`, indexing an empty
  vector) return `Option`, with `none` modelling the panic.
-/

set_option maxHeartbeats 1000000

namespace MCF

/-! ### Node and edge weights (src/model/mod.rs) -/

/-- Node type of the DiGraph (`NodeWeight` in src/model/mod.rs). -/
inductive NodeWeight where
  | Departure (trip_id time : Nat) (station_id : String)
  | Arrival (trip_id time : Nat) (station_id : String)
  | Transfer (time : Nat) (station_id : String)
  | MainArrival (station_id : String)
  | DefaultNode
deriving DecidableEq

/-- Embedding of `NodeWeight::get_time`. -/
def NodeWeight.get_time : NodeWeight → Option Nat
  | .Departure _ time _ => some time
  | .Arrival _ time _ => some time
  | .Transfer time _ => some time
  | _ => none

/-- Embedding of `NodeWeight::get_station` (only Departure and Transfer
report a station in the source). -/
def NodeWeight.get_station : NodeWeight → Option String
  | .Departure _ _ station_id => some station_id
  | .Transfer _ station_id => some station_id
  | _ => none

/-- Embedding of `NodeWeight::is_arrival_at_station`. -/
def NodeWeight.is_arrival_at_station : NodeWeight → String → Bool
  | .Arrival _ _ station_id, target => station_id == target
  | _, _ => false

/-- Modulus of u64 arithmetic. -/
def U64MOD : Nat := 2 ^ 64

/-- Edge type of the DiGraph (`EdgeWeight` in src/model/mod.rs). -/
inductive EdgeWeight where
  | RideToStation (duration capacity utilization : Nat)
  | StayInTrain (duration : Nat)
  | Embark
  | Alight (duration : Nat)
  | StayAtStation (duration : Nat)
  | WalkToStation (duration : Nat)
  | MainArrivalRelation
deriving DecidableEq

/-- Embedding of `EdgeWeight::is_ride_to_station`. -/
def EdgeWeight.is_ride_to_station : EdgeWeight → Bool
  | .RideToStation _ _ _ => true
  | _ => false

/-- Embedding of `EdgeWeight::is_walk_to_station`. -/
def EdgeWeight.is_walk_to_station : EdgeWeight → Bool
  | .WalkToStation _ => true
  | _ => false

/-- Discriminator for StayAtStation edges (used to state invariants). -/
def EdgeWeight.is_stay_at_station : EdgeWeight → Bool
  | .StayAtStation _ => true
  | _ => false

/-- Discriminator for Alight edges (used to state invariants). -/
def EdgeWeight.is_alight : EdgeWeight → Bool
  | .Alight _ => true
  | _ => false

/-- Embedding of `EdgeWeight::get_duration` (defaults to 0). -/
def EdgeWeight.get_duration : EdgeWeight → Nat
  | .RideToStation duration _ _ => duration
  | .StayInTrain duration => duration
  | .Alight duration => duration
  | .StayAtStation duration => duration
  | .WalkToStation duration => duration
  | _ => 0

/-- Embedding of `EdgeWeight::get_capacity` (defaults to u64::MAX). -/
def EdgeWeight.get_capacity : EdgeWeight → Nat
  | .RideToStation _ capacity _ => capacity
  | _ => U64MOD - 1

/-- Embedding of `EdgeWeight::increase_utilization`: on a ride edge the
addend is added to the utilization unconditionally (u64 wrap-around made
explicit); all other edges are untouched. -/
def EdgeWeight.increase_utilization : EdgeWeight → Nat → EdgeWeight
  | .RideToStation duration capacity utilization, addend =>
      .RideToStation duration capacity ((utilization + addend) % U64MOD)
  | w, _ => w

/-- Embedding of `EdgeWeight::set_utilization`. -/
def EdgeWeight.set_utilization : EdgeWeight → Nat → EdgeWeight
  | .RideToStation duration capacity _, new_utilization =>
      .RideToStation duration capacity (new_utilization % U64MOD)
  | w, _ => w

/-- Embedding of `EdgeWeight::get_utilization` (defaults to 0). -/
def EdgeWeight.get_utilization : EdgeWeight → Nat
  | .RideToStation _ _ utilization => utilization
  | _ => 0

/-- Embedding of `EdgeWeight::get_remaining_capacity`: for ride edges the
source computes `capacity - utilization` with an unchecked u64
subtraction, modelled as wrapping subtraction mod 2^64; every other kind
reports u64::MAX. -/
def EdgeWeight.get_remaining_capacity : EdgeWeight → Nat
  | .RideToStation _ capacity utilization =>
      (((capacity : Int) - (utilization : Int)) % (U64MOD : Int)).toNat
  | _ => U64MOD - 1

/-! ### The directed graph (petgraph `DiGraph<NodeWeight, EdgeWeight>`)

Nodes and edges live in arenas; an index is the position in the arena
list, exactly as petgraph hands out consecutive indices. -/

/-- An edge of the graph: endpoints plus weight. -/
structure Edge where
  src : Nat
  dst : Nat
  weight : EdgeWeight
deriving DecidableEq

/-- The directed graph: node arena and edge arena, indexed by position. -/
structure Digraph where
  nodes : List NodeWeight
  edges : List Edge
deriving DecidableEq

/-- Outgoing edges of node `n`, paired with their edge index, starting
the index count at `i`.  (petgraph's neighbor walker enumerates the
edges with source `n`; its order is irrelevant to the theorems below.) -/
def outgoingAux (n : Nat) : Nat → List Edge → List (Nat × Edge)
  | _, [] => []
  | i, e :: es =>
      if e.src = n then (i, e) :: outgoingAux n (i + 1) es
      else outgoingAux n (i + 1) es

/-- All outgoing edges of node `n` with their edge indices. -/
def outgoingEdges (g : Digraph) (n : Nat) : List (Nat × Edge) :=
  outgoingAux n 0 g.edges

/-! ### The recursive DFS path enumerator (src/model/mod.rs) -/

/-- Embedding of `Model::all_paths_dfs_recursive_helper`.  A path is the
list of (edge index, edge) pairs in order of visit.  At the goal node the
current `visited` stack is recorded; otherwise, while depth remains, each
outgoing edge that still has `min_capacity` remaining capacity and whose
duration fits into the remaining duration is followed. -/
def all_paths_dfs_recursive_helper (g : Digraph) (to_node min_capacity : Nat) :
    Nat → List (Nat × Edge) → Nat → Nat → List (List (Nat × Edge))
  | current, visited, remaining_duration, remaining_depth =>
    if current = to_node then [visited]
    else
      match remaining_depth with
      | 0 => []
      | rd + 1 =>
        (outgoingEdges g current).flatMap fun p =>
          if min_capacity ≤ p.2.weight.get_remaining_capacity ∧
              p.2.weight.get_duration ≤ remaining_duration then
            all_paths_dfs_recursive_helper g to_node min_capacity p.2.dst (visited ++ [p])
              (remaining_duration - p.2.weight.get_duration) rd
          else []

/-- Embedding of `Model::all_paths_dfs_recursive`, the launcher of the
recursive DFS. -/
def all_paths_dfs_recursive (g : Digraph) (from_node to_node min_capacity max_duration max_depth : Nat) :
    List (List (Nat × Edge)) :=
  all_paths_dfs_recursive_helper g to_node min_capacity from_node [] max_duration max_depth

/-- Total duration of a path: the sum of its edges' `get_duration`. -/
def pathDuration (p : List (Nat × Edge)) : Nat :=
  (p.map fun q => q.2.weight.get_duration).sum

/-- Boolean test that `p` is a directed walk in `g` from `a` to `b`:
each recorded index refers to the corresponding edge of the arena,
consecutive edges are joined head to tail, and the walk starts at `a`
and ends at `b` (an empty walk requires `a = b`). -/
def isWalkFromB (g : Digraph) : Nat → Nat → List (Nat × Edge) → Bool
  | a, b, [] => a == b
  | a, b, q :: rest =>
      (g.edges[q.1]? == some q.2) && (q.2.src == a) && isWalkFromB g q.2.dst b rest

/-! ### Input records (stations.csv / trips.csv / footpaths.csv rows,
after parsing; CSV ingestion itself is out of scope) -/

/-- A station record: id and transfer time. -/
structure Station where
  id : String
  transfer_time : Nat
deriving DecidableEq

/-- A trip record. -/
structure Trip where
  id : Nat
  from_station : String
  to_station : String
  departure : Nat
  arrival : Nat
  capacity : Nat
deriving DecidableEq

/-- A footpath record. -/
structure Footpath where
  from_station : String
  to_station : String
  duration : Nat
deriving DecidableEq

/-! ### Builder state (Model::with_stations_footpaths_and_trips) -/

/-- Per-station working data of the builder: the maps
`arrival_node_indices` (trip id to node index), `departure_node_indices`
(trip id to node index) and the list `transfer_node_indices`
(time, node index). -/
structure StationState where
  id : String
  transfer_time : Nat
  arrival_node_indices : List (Nat × Nat)
  departure_node_indices : List (Nat × Nat)
  transfer_node_indices : List (Nat × Nat)
deriving DecidableEq

/-- The whole builder/model state: the graph plus the two indices
`stations_departures` and `station_arrival_main_node_indices`, and the
working station map. -/
structure BuildState where
  graph : Digraph
  stations : List StationState
  stations_departures : List (String × List (Nat × Nat))
  station_arrival_main_node_indices : List (String × Nat)
deriving DecidableEq

/-- Append a node to the arena, returning its (fresh) index. -/
def addNode (s : BuildState) (w : NodeWeight) : BuildState × Nat :=
  ({ s with graph := { s.graph with nodes := s.graph.nodes ++ [w] } },
   s.graph.nodes.length)

/-- Append an edge to the arena. -/
def addEdge (s : BuildState) (src dst : Nat) (w : EdgeWeight) : BuildState :=
  { s with graph := { s.graph with edges := s.graph.edges ++ [⟨src, dst, w⟩] } }

/-- Update the station with the given id (no-op when absent; the source
would have panicked earlier on an unknown station, so theorems restrict
to inputs whose trips reference existing stations). -/
def updStation (s : BuildState) (stId : String) (f : StationState → StationState) : BuildState :=
  { s with stations := s.stations.map fun st => if st.id = stId then f st else st }

/-- Look up a station by id. -/
def getStation (s : BuildState) (stId : String) : Option StationState :=
  s.stations.find? fun st => st.id == stId

/-- Time stored at a node index (models `node_weight(i).get_time().unwrap()`;
the default is irrelevant because every use is on a time-carrying node). -/
def nodeTime (s : BuildState) (i : Nat) : Nat :=
  ((s.graph.nodes.getD i .DefaultNode).get_time).getD 0

/-- Trips pass of the builder: create the Arrival and Departure node of
the trip, register them at their stations, and connect them with a
RideToStation edge of duration `arrival - departure`. -/
def addTrip (s : BuildState) (t : Trip) : BuildState :=
  let q1 := addNode s (.Arrival t.id t.arrival t.to_station)
  let q2 := addNode q1.1 (.Departure t.id t.departure t.from_station)
  let s2 := updStation q2.1 t.to_station fun st =>
    { st with arrival_node_indices := st.arrival_node_indices ++ [(t.id, q1.2)] }
  let s3 := updStation s2 t.from_station fun st =>
    { st with departure_node_indices := st.departure_node_indices ++ [(t.id, q2.2)] }
  addEdge s3 q2.2 q1.2 (.RideToStation (t.arrival - t.departure) t.capacity 0)

/-- Key order on (time, node index) pairs used to sort the transfer list. -/
def keyLe (a b : Nat × Nat) : Prop := a.1 ≤ b.1

instance : DecidableRel keyLe := fun a b => Nat.decLe a.1 b.1

instance : IsTotal (Nat × Nat) keyLe := ⟨fun a b => Nat.le_total a.1 b.1⟩

instance : IsTrans (Nat × Nat) keyLe := ⟨fun _ _ _ => Nat.le_trans⟩

/-- One departure of the station pass: create the Transfer node co-timed
with the departure, add the Embark edge, register the transfer, and when
the same trip also arrives here add the StayInTrain edge. -/
def depStep (stId : String) (s : BuildState) (p : Nat × Nat) : BuildState :=
  let departure_node_time := nodeTime s p.2
  let q := addNode s (.Transfer departure_node_time stId)
  let s2 := addEdge q.1 q.2 p.2 .Embark
  let s3 := updStation s2 stId fun st =>
    { st with transfer_node_indices :=
        st.transfer_node_indices ++ [(departure_node_time, q.2)] }
  match (getStation s3 stId).bind
      (fun st => st.arrival_node_indices.find? fun a => a.1 == p.1) with
  | some a =>
      addEdge s3 a.2 p.2 (.StayInTrain (departure_node_time - nodeTime s3 a.2))
  | none => s3

/-- Connect adjacent transfers (`windows(2)`) with StayAtStation edges. -/
def addStayEdges (s : BuildState) : List (Nat × Nat) → BuildState
  | a :: b :: rest =>
      addStayEdges (addEdge s a.2 b.2 (.StayAtStation (b.1 - a.1))) (b :: rest)
  | _ => s

/-- One arrival of the station pass: connect it to the MainArrival node
and, when an eligible transfer (time at least arrival time plus the
station transfer time) exists, add the Alight edge to the first such
transfer of the sorted chain. -/
def arrStep (main_idx : Nat) (tr : List (Nat × Nat)) (tt : Nat)
    (s : BuildState) (p : Nat × Nat) : BuildState :=
  let s1 := addEdge s p.2 main_idx .MainArrivalRelation
  let earliest_transfer_time := nodeTime s1 p.2 + tt
  match tr.find? fun q => decide (earliest_transfer_time ≤ q.1) with
  | some q => addEdge s1 p.2 q.2 (.Alight tt)
  | none => s1

/-- Station pass of the builder for a single station: MainArrival node,
transfers with Embark/StayInTrain edges, sorted transfer chain with
StayAtStation edges, MainArrivalRelation and Alight edges, and the two
index entries. -/
def processStation (s : BuildState) (stId : String) : BuildState :=
  let q := addNode s (.MainArrival stId)
  let deps := ((getStation q.1 stId).map (·.departure_node_indices)).getD []
  let s2 := deps.foldl (depStep stId) q.1
  let s3 := updStation s2 stId fun st =>
    { st with transfer_node_indices := List.insertionSort keyLe st.transfer_node_indices }
  let tr := ((getStation s3 stId).map (·.transfer_node_indices)).getD []
  let s4 := addStayEdges s3 tr
  let arrs := ((getStation s4 stId).map (·.arrival_node_indices)).getD []
  let tt := ((getStation s4 stId).map (·.transfer_time)).getD 0
  let s5 := arrs.foldl (arrStep q.2 tr tt) s4
  { s5 with
      stations_departures := s5.stations_departures ++ [(stId, tr)],
      station_arrival_main_node_indices :=
        s5.station_arrival_main_node_indices ++ [(stId, q.2)] }

/-- Footpaths pass for one footpath: skip it when either station is
unknown; otherwise, for every arrival at the origin station, add a
WalkToStation edge to the first transfer of the target station reachable
after walking, when one exists. -/
def addFootpath (s : BuildState) (fp : Footpath) : BuildState :=
  match getStation s fp.from_station, getStation s fp.to_station with
  | some fromSt, some toSt =>
      fromSt.arrival_node_indices.foldl
        (fun s1 p =>
          let earliest_transfer_time := nodeTime s1 p.2 + fp.duration
          match toSt.transfer_node_indices.find?
              (fun q => decide (earliest_transfer_time ≤ q.1)) with
          | some q => addEdge s1 p.2 q.2 (.WalkToStation fp.duration)
          | none => s1)
        s
  | _, _ => s

/-- Embedding of `Model::with_stations_footpaths_and_trips` on parsed
records: trips pass, station pass (in the given enumeration order of the
station map), footpaths pass. -/
def buildModel (stations : List Station) (trips : List Trip)
    (footpaths : List Footpath) : BuildState :=
  let s0 : BuildState :=
    { graph := { nodes := [], edges := [] },
      stations := stations.map fun st =>
        { id := st.id, transfer_time := st.transfer_time,
          arrival_node_indices := [], departure_node_indices := [],
          transfer_node_indices := [] },
      stations_departures := [],
      station_arrival_main_node_indices := [] }
  let s1 := trips.foldl addTrip s0
  let s2 := (stations.map (·.id)).foldl processStation s1
  footpaths.foldl addFootpath s2

/-! ### Index lookups (src/model/mod.rs) -/

/-- Embedding of `Model::find_start_node_index`: the first transfer of
the station's (time-sorted) transfer list departing no earlier than
`start_time`. -/
def find_start_node_index (M : BuildState) (station_id : String) (start_time : Nat) : Option Nat :=
  match M.stations_departures.find? fun p => p.1 == station_id with
  | some p => (p.2.find? fun q => decide (start_time ≤ q.1)).map (·.2)
  | none => none

/-- Embedding of `Model::find_end_node_index`. -/
def find_end_node_index (M : BuildState) (station_id : String) : Option Nat :=
  (M.station_arrival_main_node_indices.find? fun p => p.1 == station_id).map (·.2)

/-! ### Groups (src/model/group.rs) -/

/-- A travel group record. -/
structure Group where
  id : Nat
  start : String
  destination : String
  departure : Nat
  arrival : Nat
  passengers : Nat
  in_trip : Option Nat
deriving DecidableEq

/-- Embedding of `Group::calculate_max_travel_duration`. -/
def calculate_max_travel_duration (travel_time : Nat) : Nat :=
  2 * travel_time + 50

/-- Source node used by `Group::search_paths` for the path search: the
source passes `self.start` and `self.departure` to
`find_start_node_index` (note: `self.in_trip` is not consulted). -/
def search_paths_from (M : BuildState) (g : Group) : Option Nat :=
  find_start_node_index M g.start g.departure

/-- Embedding of `Group::search_paths`.  The enumerator
`path::Path::all_paths_iddfs` and the path order live in a source file
outside src/, so they enter as parameters `enum` (called with source,
sink, passengers and max duration) and `le` (the path order used by
`sort_unstable`).  `none` models the panic of the two `expect` calls;
otherwise the result is the stored path list plus the returned Bool. -/
def search_paths {P : Type} (le : P → P → Prop) [DecidableRel le]
    (enum : Nat → Nat → Nat → Nat → List P)
    (M : BuildState) (g : Group) : Option (List P × Bool) :=
  match search_paths_from M g with
  | none => none
  | some from_idx =>
    match find_end_node_index M g.destination with
    | none => none
    | some to_idx =>
      if g.arrival < g.departure then some ([], false)
      else
        let travel_time := g.arrival - g.departure
        let max_duration := calculate_max_travel_duration travel_time
        let paths := (List.insertionSort le
          (enum from_idx to_idx g.passengers max_duration)).reverse
        if paths.length = 0 then some (paths, false) else some (paths, true)

/-! ### Simulated annealing (src/optimization/simulated_annealing_elias.rs)

The state type `SelectionState`, its cost, its neighbor generation and
the random stream live outside src/, so they enter as parameters.  The
floating point temperature is modelled over the rationals: near the two
comparison points used by the program (100/31^2 and 100/32^2 against
0.1) the f64 rounding error is orders of magnitude below the slack, so
the rational model decides every comparison exactly as the f64 run. -/

/-- Embedding of `time_to_temperature`. -/
def time_to_temperature (time : ℚ) : ℚ := 100 / time ^ (2 : Nat)

/-- Embedding of one loop body of `simulated_annealing` after the
temperature check: sort the neighbors by cost, propose the first
(minimum cost) one, accept it when the cost strictly decreases and
otherwise accept it when the uniform draw lies below `exp (delta / T)`.
`none` models the panic of `&neighbors[0]` on an empty neighbor list. -/
noncomputable def sa_step {S : Type} (cost : S → Nat) (neighbors : List S)
    (temperature random : ℝ) (current : S) : Option S :=
  match List.insertionSort (fun a b => cost a ≤ cost b) neighbors with
  | [] => none
  | next :: _ =>
    let delta_cost : Int := (cost current : Int) - (cost next : Int)
    if 0 < delta_cost then some next
    else if random < Real.exp ((delta_cost : ℝ) / temperature) then some next
    else some current

/-- Embedding of the `simulated_annealing` loop: starting at time 1,
return the current state as soon as the temperature drops below 0.1,
otherwise run one `sa_step` with the draw `randoms time` and continue at
`time + 1`. -/
noncomputable def sa_loop {S : Type} (cost : S → Nat) (gen : S → List S)
    (randoms : Nat → ℝ) : Nat → S → Option S
  | time, current =>
    if time_to_temperature (time : ℚ) < 1 / 10 then some current
    else
      match sa_step cost (gen current) ((time_to_temperature (time : ℚ) : ℝ))
          (randoms time) current with
      | none => none
      | some next => sa_loop cost gen randoms (time + 1) next
termination_by time _ => 32 - time
decreasing_by
  simp only [not_lt] at *
  have h1 : time < 32 := by
    by_contra hge
    simp only [not_lt] at hge
    have h2 : (32 : ℚ) ≤ (time : ℚ) := by exact_mod_cast hge
    have h3 : (0 : ℚ) < (time : ℚ) ^ (2 : Nat) := by positivity
    have h4 : (1024 : ℚ) ≤ (time : ℚ) ^ (2 : Nat) := by nlinarith
    have h5 : time_to_temperature (time : ℚ) < 1 / 10 := by
      unfold time_to_temperature
      rw [div_lt_iff₀ h3]
      nlinarith
    simp only [time_to_temperature] at *
    linarith [le_of_lt h5]
  omega

/-- Embedding of `simulated_annealing` (the initial state comes from
`generate_random_state`, outside src/, hence a parameter). -/
noncomputable def simulated_annealing {S : Type} (cost : S → Nat) (gen : S → List S)
    (randoms : Nat → ℝ) (start_state : S) : Option S :=
  sa_loop cost gen randoms 1 start_state

/-- Total step function used to state what the loop computes when no
iteration panics. -/
noncomputable def sa_step_total {S : Type} (cost : S → Nat) (gen : S → List S)
    (randoms : Nat → ℝ) (time : Nat) (s : S) : S :=
  (sa_step cost (gen s) ((time_to_temperature (time : ℚ) : ℝ)) (randoms time) s).getD s

/-! ### Statement helpers -/

/-- Bool test that node `i` of the model is a Transfer node of station
`stId`. -/
def isTransferAt (M : BuildState) (stId : String) (i : Nat) : Bool :=
  match M.graph.nodes[i]? with
  | some (.Transfer _ s) => s == stId
  | _ => false

/-- The Alight edges leaving node `a`. -/
def alightEdgesFrom (M : BuildState) (a : Nat) : List Edge :=
  (M.graph.edges.filter fun e => e.weight.is_alight).filter fun e => e.src == a

/-- The WalkToStation edges leaving node `a` whose target is a Transfer
node of station `stId`. -/
def walkEdgesFromTo (M : BuildState) (a : Nat) (stId : String) : List Edge :=
  (M.graph.edges.filter fun e => e.weight.is_walk_to_station).filter fun e =>
    e.src == a && isTransferAt M stId e.dst

/-- The StayAtStation edges from node `a` to node `b`. -/
def stayEdgesBetween (M : BuildState) (a b : Nat) : List Edge :=
  (M.graph.edges.filter fun e => e.weight.is_stay_at_station).filter fun e =>
    e.src == a && e.dst == b

/-- The StayAtStation edges a sorted transfer chain gives rise to: one
edge per adjacent pair, with the time difference as duration. -/
def chainStayEdges : List (Nat × Nat) → List Edge
  | a :: b :: rest => ⟨a.2, b.2, .StayAtStation (b.1 - a.1)⟩ :: chainStayEdges (b :: rest)
  | _ => []

/-- The Alight edges produced for the arrivals of station `stId` against
a transfer chain `tr` in state `s`: one edge per arrival that has an
eligible transfer. -/
def aBlock (s : BuildState) (stId : String) (tr : List (Nat × Nat)) : List Edge :=
  match getStation s stId with
  | some st =>
      st.arrival_node_indices.filterMap fun p =>
        (tr.find? fun q => decide (nodeTime s p.2 + st.transfer_time ≤ q.1)).map
          fun q => ⟨p.2, q.2, .Alight st.transfer_time⟩
  | none => []

/-- The WalkToStation edges produced for one footpath in state `s`. -/
def wBlock (s : BuildState) (fp : Footpath) : List Edge :=
  match getStation s fp.from_station, getStation s fp.to_station with
  | some fromSt, some toSt =>
      fromSt.arrival_node_indices.filterMap fun p =>
        (toSt.transfer_node_indices.find? fun q =>
            decide (nodeTime s p.2 + fp.duration ≤ q.1)).map
          fun q => ⟨p.2, q.2, .WalkToStation fp.duration⟩
  | _, _ => []

/-- Structural invariant of the builder state: station ids are distinct,
every index registered in a station's arrival or transfer list refers to
a node of the right kind at that station, index lists are duplicate
free, and every Arrival node of the graph is registered at its station. -/
structure Inv (s : BuildState) : Prop where
  idsND : (s.stations.map fun st => st.id).Nodup
  arrOK : ∀ st ∈ s.stations, ∀ p ∈ st.arrival_node_indices,
    ∃ time, s.graph.nodes[p.2]? = some (.Arrival p.1 time st.id)
  trOK : ∀ st ∈ s.stations, ∀ p ∈ st.transfer_node_indices,
    s.graph.nodes[p.2]? = some (.Transfer p.1 st.id)
  arrND : ∀ st ∈ s.stations, (st.arrival_node_indices.map Prod.snd).Nodup
  trND : ∀ st ∈ s.stations, (st.transfer_node_indices.map Prod.snd).Nodup
  arrComplete : ∀ i tid time stId, s.graph.nodes[i]? = some (.Arrival tid time stId) →
    ∃ st ∈ s.stations, st.id = stId ∧ (tid, i) ∈ st.arrival_node_indices

/-- Invariant of the `stations_departures` index built by the station
pass: station ids are distinct, every recorded chain is sorted by time,
and each entry mirrors its station's transfer list. -/
def SdInv (s : BuildState) : Prop :=
  (s.stations_departures.map Prod.fst).Nodup ∧
  (∀ p ∈ s.stations_departures, List.Sorted keyLe p.2) ∧
  (∀ p ∈ s.stations_departures,
    ∃ st, getStation s p.1 = some st ∧ st.transfer_node_indices = p.2)

/-- The stations of `L` are still waiting to be processed by the station
pass: `L` has no duplicates, each of its ids belongs to a station whose
transfer list is still empty, and none of them has an index entry yet. -/
def Pending (s : BuildState) (L : List String) : Prop :=
  L.Nodup ∧
  (∀ id ∈ L, ∃ st, getStation s id = some st ∧ st.transfer_node_indices = []) ∧
  (∀ p ∈ s.stations_departures, p.1 ∉ L)

/-- The node arena of `s'` extends that of `s`. -/
def NodesExtend (s s' : BuildState) : Prop :=
  ∃ d, s'.graph.nodes = s.graph.nodes ++ d

/-- The station-record transformation performed by one trip of the trips
pass when the node arena held `n` nodes before the trip: register the
arrival node `n` at the trip's target station and the departure node
`n + 1` at its origin station. -/
def tripStationUpd (t : Trip) (n : Nat) (st : StationState) : StationState :=
  let st1 := if st.id = t.to_station then
    { st with arrival_node_indices := st.arrival_node_indices ++ [(t.id, n)] }
  else st
  if st1.id = t.from_station then
    { st1 with departure_node_indices := st1.departure_node_indices ++ [(t.id, n + 1)] }
  else st1

/-! ### Concrete fixtures used by witnesses and counterexamples -/

/-- Tiny graph: a Transfer node and a MainArrival node joined by one
MainArrivalRelation edge. -/
def gTiny : Digraph :=
  { nodes := [.Transfer 0 "A", .MainArrival "A"],
    edges := [⟨0, 1, .MainArrivalRelation⟩] }

/-- One-node graph with no edges. -/
def gSingle : Digraph :=
  { nodes := [.Transfer 0 "A"], edges := [] }

/-- Station list of the main worked example. -/
def exStations : List Station := [⟨"A", 0⟩, ⟨"B", 5⟩, ⟨"C", 0⟩]

/-- Trip list of the main worked example. -/
def exTrips : List Trip :=
  [⟨1, "A", "B", 0, 10, 5⟩, ⟨2, "B", "C", 20, 30, 5⟩,
   ⟨3, "C", "A", 25, 40, 5⟩, ⟨4, "A", "B", 5, 9, 5⟩]

/-- Footpath list of the main worked example. -/
def exFootpaths : List Footpath := [⟨"B", "C", 3⟩]

/-- The main worked example model. -/
def exModel : BuildState := buildModel exStations exTrips exFootpaths

/-- Model with two departures at the same time at the same station
(station pass tie). -/
def tieModel : BuildState :=
  buildModel [⟨"A", 0⟩, ⟨"B", 0⟩]
    [⟨1, "A", "B", 5, 6, 1⟩, ⟨2, "A", "B", 5, 7, 1⟩] []

/-- The empty model. -/
def emptyModel : BuildState := buildModel [] [] []

/-- A group sitting in trip 1, used to exhibit that the source-node
selection ignores `in_trip`. -/
def exGroupInTrip : Group :=
  { id := 7, start := "B", destination := "C", departure := 10, arrival := 30,
    passengers := 1, in_trip := some 1 }

/-- A well-formed group from A to C. -/
def exGroupAC : Group :=
  { id := 8, start := "A", destination := "C", departure := 0, arrival := 30,
    passengers := 1, in_trip := none }

/-- An enumerator stub that finds nothing. -/
def enumNone : Nat → Nat → Nat → Nat → List Nat := fun _ _ _ _ => []

/-- The worked example's footpath list with the B→C footpath repeated:
footpaths are a plain Vec in the source, so a duplicated entry is an
admissible input. -/
def dupFootpaths : List Footpath := [⟨"B", "C", 3⟩, ⟨"B", "C", 3⟩]

/-- The worked example built with the duplicated footpath list. -/
def dupFootpathModel : BuildState := buildModel exStations exTrips dupFootpaths

/-!
## Theorems

All definitions are above; everything below is proved about them.
-/

/-! ### Capacity accounting (claim C10) -/

/-- C10: for every RideToStation edge with `utilization ≤ capacity` (and
capacity a u64 value), `get_remaining_capacity` returns exactly
`capacity - utilization` and the unchecked u64 subtraction cannot
underflow (the exact integer difference is non-negative); and
`increase_utilization` adds its addend to the utilization
unconditionally — in particular it can push the utilization beyond the
capacity, so the precondition must be supplied by the call sites. -/
theorem C10_remaining_capacity_no_underflow
    (duration capacity utilization : Nat)
    (h : utilization ≤ capacity) (hcap : capacity < U64MOD) :
    (EdgeWeight.RideToStation duration capacity utilization).get_remaining_capacity
      = capacity - utilization ∧
    (0 : Int) ≤ (capacity : Int) - (utilization : Int) ∧
    (∀ addend,
      (EdgeWeight.RideToStation duration capacity utilization).increase_utilization addend
        = .RideToStation duration capacity ((utilization + addend) % U64MOD)) ∧
    (EdgeWeight.RideToStation 0 1 1).increase_utilization 1 = .RideToStation 0 1 2 := by
  have hle : (utilization : Int) ≤ (capacity : Int) := by exact_mod_cast h
  have hnonneg : (0 : Int) ≤ (capacity : Int) - (utilization : Int) := by omega
  refine ⟨?_, hnonneg, fun addend => rfl, by decide⟩
  have hlt : (capacity : Int) - (utilization : Int) < (U64MOD : Int) := by
    have : (capacity : Int) < (U64MOD : Int) := by exact_mod_cast hcap
    omega
  have hmod : ((capacity : Int) - (utilization : Int)) % (U64MOD : Int)
      = (capacity : Int) - (utilization : Int) :=
    Int.emod_emod_of_dvd _ (dvd_refl _) ▸ Int.emod_eq_of_lt hnonneg hlt
  simp only [EdgeWeight.get_remaining_capacity, hmod]
  omega

/-- Witness for C10 at a concrete edge. -/
theorem C10_witness :
    (3 : Nat) ≤ 5 ∧ (5 : Nat) < U64MOD ∧
    ((EdgeWeight.RideToStation 7 5 3).get_remaining_capacity = 5 - 3 ∧
     (0 : Int) ≤ (5 : Int) - (3 : Int) ∧
     (∀ addend,
       (EdgeWeight.RideToStation 7 5 3).increase_utilization addend
         = .RideToStation 7 5 ((3 + addend) % U64MOD)) ∧
     (EdgeWeight.RideToStation 0 1 1).increase_utilization 1 = .RideToStation 0 1 2) :=
  ⟨by decide, by decide, by
    have h5 : ((5 : Nat) : Int) = (5 : Int) := by norm_num
    have h3 : ((3 : Nat) : Int) = (3 : Int) := by norm_num
    have := C10_remaining_capacity_no_underflow 7 5 3 (by decide) (by decide)
    simpa [h5, h3] using this⟩

/-! ### DFS enumerator: basic unfolding lemmas -/

theorem helper_goal (g : Digraph) (to_node min_capacity current : Nat)
    (visited : List (Nat × Edge)) (dur depth : Nat) (h : current = to_node) :
    all_paths_dfs_recursive_helper g to_node min_capacity current visited dur depth
      = [visited] := by
  rw [all_paths_dfs_recursive_helper.eq_def]
  simp [h]

theorem helper_zero (g : Digraph) (to_node min_capacity current : Nat)
    (visited : List (Nat × Edge)) (dur : Nat) (h : current ≠ to_node) :
    all_paths_dfs_recursive_helper g to_node min_capacity current visited dur 0 = [] := by
  rw [all_paths_dfs_recursive_helper.eq_def]
  simp [h]

theorem helper_succ (g : Digraph) (to_node min_capacity current : Nat)
    (visited : List (Nat × Edge)) (dur rd : Nat) (h : current ≠ to_node) :
    all_paths_dfs_recursive_helper g to_node min_capacity current visited dur (rd + 1)
      = (outgoingEdges g current).flatMap fun p =>
          if min_capacity ≤ p.2.weight.get_remaining_capacity ∧
              p.2.weight.get_duration ≤ dur then
            all_paths_dfs_recursive_helper g to_node min_capacity p.2.dst (visited ++ [p])
              (dur - p.2.weight.get_duration) rd
          else [] := by
  rw [all_paths_dfs_recursive_helper.eq_def]
  simp [h]

theorem outgoingAux_sound (n : Nat) :
    ∀ (es : List Edge) (i j : Nat) (e : Edge),
      (j, e) ∈ outgoingAux n i es → e.src = n ∧ i ≤ j ∧ es[j - i]? = some e := by
  intro es
  induction es with
  | nil => intro i j e h; simp [outgoingAux] at h
  | cons e' es ih =>
    intro i j e h
    rw [outgoingAux] at h
    by_cases hs : e'.src = n
    · simp only [if_pos hs] at h
      rcases List.mem_cons.mp h with heq | htail
      · obtain ⟨hj, he⟩ := Prod.mk.injEq .. ▸ heq
        subst hj; subst he
        simp [hs]
      · obtain ⟨h1, h2, h3⟩ := ih (i + 1) j e htail
        refine ⟨h1, by omega, ?_⟩
        have hji : j - i = (j - (i + 1)) + 1 := by omega
        rw [hji, List.getElem?_cons_succ]
        exact h3
    · simp only [if_neg hs] at h
      obtain ⟨h1, h2, h3⟩ := ih (i + 1) j e h
      refine ⟨h1, by omega, ?_⟩
      have hji : j - i = (j - (i + 1)) + 1 := by omega
      rw [hji, List.getElem?_cons_succ]
      exact h3

theorem outgoingEdges_sound (g : Digraph) (n : Nat) (j : Nat) (e : Edge)
    (h : (j, e) ∈ outgoingEdges g n) : e.src = n ∧ g.edges[j]? = some e := by
  obtain ⟨h1, _, h3⟩ := outgoingAux_sound n g.edges 0 j e h
  exact ⟨h1, by simpa using h3⟩

theorem pathDuration_nil : pathDuration [] = 0 := rfl

theorem pathDuration_cons (q : Nat × Edge) (s : List (Nat × Edge)) :
    pathDuration (q :: s) = q.2.weight.get_duration + pathDuration s := by
  simp [pathDuration]

/-- Main structural lemma about the DFS helper: every recorded path
extends `visited` by a suffix that is a directed walk from `current` to
the goal, fits into the remaining duration, and only uses edges with
enough remaining capacity. -/
theorem helper_paths_spec (g : Digraph) (to_node min_capacity : Nat) :
    ∀ (depth current : Nat) (visited : List (Nat × Edge)) (dur : Nat)
      (p : List (Nat × Edge)),
      p ∈ all_paths_dfs_recursive_helper g to_node min_capacity current visited dur depth →
      ∃ s, p = visited ++ s ∧ pathDuration s ≤ dur ∧
        (∀ q ∈ s, min_capacity ≤ q.2.weight.get_remaining_capacity) ∧
        isWalkFromB g current to_node s = true := by
  intro depth
  induction depth with
  | zero =>
    intro current visited dur p hp
    by_cases hc : current = to_node
    · rw [helper_goal g to_node min_capacity current visited dur 0 hc] at hp
      simp only [List.mem_singleton] at hp
      subst hp
      exact ⟨[], by simp, by simp [pathDuration_nil], by simp, by simp [isWalkFromB, hc]⟩
    · rw [helper_zero g to_node min_capacity current visited dur hc] at hp
      simp at hp
  | succ rd ih =>
    intro current visited dur p hp
    by_cases hc : current = to_node
    · rw [helper_goal g to_node min_capacity current visited dur (rd + 1) hc] at hp
      simp only [List.mem_singleton] at hp
      subst hp
      exact ⟨[], by simp, by simp [pathDuration_nil], by simp, by simp [isWalkFromB, hc]⟩
    · rw [helper_succ g to_node min_capacity current visited dur rd hc] at hp
      rw [List.mem_flatMap] at hp
      obtain ⟨q, hq, hpq⟩ := hp
      by_cases hcond : min_capacity ≤ q.2.weight.get_remaining_capacity ∧
          q.2.weight.get_duration ≤ dur
      · rw [if_pos hcond] at hpq
        obtain ⟨s', hs'eq, hs'dur, hs'cap, hs'walk⟩ := ih q.2.dst (visited ++ [q])
          (dur - q.2.weight.get_duration) p hpq
        obtain ⟨hsrc, hidx⟩ := outgoingEdges_sound g current q.1 q.2 hq
        refine ⟨q :: s', by simpa using hs'eq, ?_, ?_, ?_⟩
        · rw [pathDuration_cons]
          omega
        · intro r hr
          rcases List.mem_cons.mp hr with h | h
          · subst h; exact hcond.1
          · exact hs'cap r h
        · simp only [isWalkFromB, Bool.and_eq_true, beq_iff_eq]
          refine ⟨⟨?_, hsrc⟩, hs'walk⟩
          simpa using hidx
      · rw [if_neg hcond] at hpq
        simp at hpq

/-! ### Claim C1 -/

/-- C1: every path returned by `all_paths_dfs_recursive` has total
duration (the sum of its edges' `get_duration`) at most `max_duration`,
and every edge on it has `get_remaining_capacity ≥ min_capacity` (the
graph is not mutated during the search, so this is the value at the
moment the edge was taken).  For RideToStation edges within the u64
range and with `utilization ≤ capacity` this means
`capacity - utilization ≥ min_capacity`; every non-Ride edge reports the
unbounded remaining capacity u64::MAX. -/
theorem C1_paths_within_duration_and_capacity
    (g : Digraph) (from_node to_node min_capacity max_duration max_depth : Nat)
    (p : List (Nat × Edge))
    (hp : p ∈ all_paths_dfs_recursive g from_node to_node min_capacity max_duration max_depth) :
    pathDuration p ≤ max_duration ∧
    (∀ q ∈ p, min_capacity ≤ q.2.weight.get_remaining_capacity) ∧
    (∀ q ∈ p, ∀ d c u, q.2.weight = .RideToStation d c u → u ≤ c → c < U64MOD →
      min_capacity + u ≤ c) ∧
    (∀ q ∈ p, q.2.weight.is_ride_to_station = false →
      q.2.weight.get_remaining_capacity = U64MOD - 1) := by
  obtain ⟨s, hs, hdur, hcap, _⟩ :=
    helper_paths_spec g to_node min_capacity max_depth from_node [] max_duration p hp
  simp only [List.nil_append] at hs
  subst hs
  refine ⟨hdur, hcap, ?_, ?_⟩
  · intro q hq d c u hw hu hc
    have h1 := hcap q hq
    rw [hw] at h1
    simp only [EdgeWeight.get_remaining_capacity] at h1
    have hnn : (0 : Int) ≤ (c : Int) - (u : Int) := by
      have : (u : Int) ≤ (c : Int) := by exact_mod_cast hu
      omega
    have hlt : (c : Int) - (u : Int) < (U64MOD : Int) := by
      have : (c : Int) < (U64MOD : Int) := by exact_mod_cast hc
      omega
    rw [Int.emod_eq_of_lt hnn hlt] at h1
    omega
  · intro q hq hnr
    cases hw : q.2.weight with
    | RideToStation d c u => rw [hw] at hnr; simp [EdgeWeight.is_ride_to_station] at hnr
    | _ => simp [EdgeWeight.get_remaining_capacity]

/-- Witness for C1 on a concrete one-edge graph. -/
theorem C1_witness :
    [(0, ⟨0, 1, .MainArrivalRelation⟩)] ∈ all_paths_dfs_recursive gTiny 0 1 1 10 5 ∧
    (pathDuration [(0, ⟨0, 1, .MainArrivalRelation⟩)] ≤ 10 ∧
     (∀ q ∈ [((0 : Nat), Edge.mk 0 1 .MainArrivalRelation)],
       1 ≤ q.2.weight.get_remaining_capacity) ∧
     (∀ q ∈ [((0 : Nat), Edge.mk 0 1 .MainArrivalRelation)],
       ∀ d c u, q.2.weight = .RideToStation d c u → u ≤ c → c < U64MOD → 1 + u ≤ c) ∧
     (∀ q ∈ [((0 : Nat), Edge.mk 0 1 .MainArrivalRelation)],
       q.2.weight.is_ride_to_station = false →
       q.2.weight.get_remaining_capacity = U64MOD - 1)) :=
  ⟨by decide, C1_paths_within_duration_and_capacity gTiny 0 1 1 10 5 _ (by decide)⟩

/-! ### Claim C9 -/

/-- C9 counterexample: when the source node equals the sink node the
enumerator records the empty edge sequence as a path, so not every
returned path is non-empty. -/
theorem C9_counterexample_empty_path :
    ¬ (∀ p ∈ all_paths_dfs_recursive gSingle 0 0 1 10 5, p ≠ []) := by
  intro h
  exact h [] (by decide) rfl

/-- C9 (amended): for distinct source and sink, every path returned by
`all_paths_dfs_recursive` is a non-empty sequence of edges of the graph
forming a directed walk that starts at the source node and ends at the
sink node (when source and sink coincide the single returned path is the
empty walk). -/
theorem C9_paths_are_walks
    (g : Digraph) (from_node to_node min_capacity max_duration max_depth : Nat)
    (p : List (Nat × Edge)) (hne : from_node ≠ to_node)
    (hp : p ∈ all_paths_dfs_recursive g from_node to_node min_capacity max_duration max_depth) :
    p ≠ [] ∧ isWalkFromB g from_node to_node p = true := by
  obtain ⟨s, hs, _, _, hwalk⟩ :=
    helper_paths_spec g to_node min_capacity max_depth from_node [] max_duration p hp
  simp only [List.nil_append] at hs
  subst hs
  refine ⟨?_, hwalk⟩
  intro hnil
  subst hnil
  simp only [isWalkFromB, beq_iff_eq] at hwalk
  exact hne hwalk

/-- Witness for C9 on the concrete one-edge graph. -/
theorem C9_witness :
    (0 : Nat) ≠ 1 ∧
    [(0, ⟨0, 1, .MainArrivalRelation⟩)] ∈ all_paths_dfs_recursive gTiny 0 1 1 10 5 ∧
    ([((0 : Nat), Edge.mk 0 1 .MainArrivalRelation)] ≠ [] ∧
     isWalkFromB gTiny 0 1 [(0, ⟨0, 1, .MainArrivalRelation⟩)] = true) :=
  ⟨by decide, by decide,
   C9_paths_are_walks gTiny 0 1 1 10 5 _ (by decide) (by decide)⟩

/-! ### Claim C4 -/

/-- Monotonicity of the DFS helper in the two search limits. -/
theorem helper_mono (g : Digraph) (to_node min_capacity : Nat) :
    ∀ (depth current : Nat) (visited : List (Nat × Edge)) (dur dur' depth' : Nat)
      (p : List (Nat × Edge)), dur ≤ dur' → depth ≤ depth' →
      p ∈ all_paths_dfs_recursive_helper g to_node min_capacity current visited dur depth →
      p ∈ all_paths_dfs_recursive_helper g to_node min_capacity current visited dur' depth' := by
  intro depth
  induction depth with
  | zero =>
    intro current visited dur dur' depth' p _ _ hp
    by_cases hc : current = to_node
    · rw [helper_goal g to_node min_capacity current visited dur 0 hc] at hp
      rw [helper_goal g to_node min_capacity current visited dur' depth' hc]
      exact hp
    · rw [helper_zero g to_node min_capacity current visited dur hc] at hp
      simp at hp
  | succ rd ih =>
    intro current visited dur dur' depth' p hdur hdepth hp
    by_cases hc : current = to_node
    · rw [helper_goal g to_node min_capacity current visited dur (rd + 1) hc] at hp
      rw [helper_goal g to_node min_capacity current visited dur' depth' hc]
      exact hp
    · rw [helper_succ g to_node min_capacity current visited dur rd hc] at hp
      obtain ⟨rd', hrd'⟩ : ∃ rd', depth' = rd' + 1 := by
        cases depth' with
        | zero => omega
        | succ m => exact ⟨m, rfl⟩
      subst hrd'
      rw [helper_succ g to_node min_capacity current visited dur' rd' hc]
      rw [List.mem_flatMap] at hp ⊢
      obtain ⟨q, hq, hpq⟩ := hp
      refine ⟨q, hq, ?_⟩
      by_cases hcond : min_capacity ≤ q.2.weight.get_remaining_capacity ∧
          q.2.weight.get_duration ≤ dur
      · rw [if_pos hcond] at hpq
        have hcond' : min_capacity ≤ q.2.weight.get_remaining_capacity ∧
            q.2.weight.get_duration ≤ dur' := ⟨hcond.1, le_trans hcond.2 hdur⟩
        rw [if_pos hcond']
        exact ih q.2.dst (visited ++ [q]) (dur - q.2.weight.get_duration)
          (dur' - q.2.weight.get_duration) rd' p
          (Nat.sub_le_sub_right hdur _) (by omega) hpq
      · rw [if_neg hcond] at hpq
        simp at hpq

/-- C4: the enumerator is monotone in its search limits.  Every path
found by `all_paths_dfs_recursive` at limits `(max_duration, max_depth)`
is also found at any pointwise larger limits. -/
theorem C4_enumerator_monotone_in_limits
    (g : Digraph) (from_node to_node min_capacity : Nat)
    (max_duration max_duration' max_depth max_depth' : Nat)
    (p : List (Nat × Edge))
    (hdur : max_duration ≤ max_duration') (hdepth : max_depth ≤ max_depth')
    (hp : p ∈ all_paths_dfs_recursive g from_node to_node min_capacity max_duration max_depth) :
    p ∈ all_paths_dfs_recursive g from_node to_node min_capacity max_duration' max_depth' :=
  helper_mono g to_node min_capacity max_depth from_node [] max_duration max_duration'
    max_depth' p hdur hdepth hp

/-- Witness for C4 on the concrete one-edge graph. -/
theorem C4_witness :
    (10 : Nat) ≤ 25 ∧ (5 : Nat) ≤ 9 ∧
    [(0, ⟨0, 1, .MainArrivalRelation⟩)] ∈ all_paths_dfs_recursive gTiny 0 1 1 10 5 ∧
    [(0, ⟨0, 1, .MainArrivalRelation⟩)] ∈ all_paths_dfs_recursive gTiny 0 1 1 25 9 :=
  ⟨by decide, by decide, by decide,
   C4_enumerator_monotone_in_limits gTiny 0 1 1 10 25 5 9 _ (by decide) (by decide) (by decide)⟩

/-! ### Simulated annealing: temperature schedule and loop -/

theorem temp_lt_iff (t : Nat) (ht : 1 ≤ t) :
    (time_to_temperature (t : ℚ) < 1 / 10) ↔ 32 ≤ t := by
  unfold time_to_temperature
  have htq : (1 : ℚ) ≤ (t : ℚ) := by exact_mod_cast ht
  have h0 : (0 : ℚ) < (t : ℚ) ^ (2 : Nat) := by positivity
  rw [div_lt_iff₀ h0, pow_two]
  constructor
  · intro h
    by_contra hlt
    push_neg at hlt
    have h31 : (t : ℚ) ≤ 31 := by
      have : t ≤ 31 := by omega
      exact_mod_cast this
    nlinarith
  · intro h
    have h32 : (32 : ℚ) ≤ (t : ℚ) := by exact_mod_cast h
    nlinarith

theorem sa_step_isSome {S : Type} (cost : S → Nat) (neighbors : List S)
    (temperature random : ℝ) (current : S) (hne : neighbors ≠ []) :
    ∃ x, sa_step cost neighbors temperature random current = some x := by
  cases hsort : List.insertionSort (fun a b => cost a ≤ cost b) neighbors with
  | nil =>
    exfalso
    have hperm := List.perm_insertionSort (fun a b => cost a ≤ cost b) neighbors
    rw [hsort] at hperm
    exact hne hperm.symm.eq_nil
  | cons next rest =>
    simp only [sa_step, hsort]
    split
    · exact ⟨_, rfl⟩
    · split
      · exact ⟨_, rfl⟩
      · exact ⟨_, rfl⟩

theorem sa_loop_halt {S : Type} (cost : S → Nat) (gen : S → List S)
    (randoms : Nat → ℝ) (t : Nat) (s : S) (h : 32 ≤ t) :
    sa_loop cost gen randoms t s = some s := by
  rw [sa_loop.eq_def]
  dsimp only
  have hlt : time_to_temperature (t : ℚ) < 1 / 10 := (temp_lt_iff t (by omega)).mpr h
  rw [if_pos hlt]

theorem sa_loop_step {S : Type} (cost : S → Nat) (gen : S → List S)
    (randoms : Nat → ℝ) (t : Nat) (s : S) (h1 : 1 ≤ t) (h2 : t ≤ 31)
    (hgen : ∀ x, gen x ≠ []) :
    sa_loop cost gen randoms t s
      = sa_loop cost gen randoms (t + 1) (sa_step_total cost gen randoms t s) := by
  rw [sa_loop.eq_def]
  dsimp only
  have hnot : ¬ time_to_temperature (t : ℚ) < 1 / 10 := by
    rw [temp_lt_iff t h1]; omega
  obtain ⟨x, hx⟩ := sa_step_isSome cost (gen s)
    ((time_to_temperature (t : ℚ) : ℝ)) (randoms t) s (hgen s)
  simp only [if_neg hnot, hx]
  have hval : sa_step_total cost gen randoms t s = x := by
    simp [sa_step_total, hx]
  rw [hval]

theorem sa_loop_fold {S : Type} (cost : S → Nat) (gen : S → List S)
    (randoms : Nat → ℝ) (hgen : ∀ x, gen x ≠ []) :
    ∀ (n t : Nat) (s : S), t + n = 32 → 1 ≤ t →
      sa_loop cost gen randoms t s =
        some ((List.range' t n).foldl
          (fun st u => sa_step_total cost gen randoms u st) s) := by
  intro n
  induction n with
  | zero =>
    intro t s ht h1
    rw [sa_loop_halt cost gen randoms t s (by omega)]
    simp
  | succ m ih =>
    intro t s ht h1
    rw [sa_loop_step cost gen randoms t s h1 (by omega) hgen]
    rw [ih (t + 1) _ (by omega) (by omega)]
    rw [List.range'_succ]
    simp [List.foldl]

/-! ### Claim C7 -/

/-- C7: in each loop iteration (one `sa_step`), the proposed next state
is the head of the neighbor list sorted by cost, hence a minimum-cost
neighbor; it replaces the current state whenever its cost is strictly
lower, and otherwise exactly when the uniform draw lies below
`exp ((current.cost - next.cost) / T)`. -/
theorem C7_sa_step_selection {S : Type} (cost : S → Nat) (neighbors : List S)
    (temperature random : ℝ) (current : S) (hne : neighbors ≠ []) :
    ∃ next,
      (List.insertionSort (fun a b => cost a ≤ cost b) neighbors).head? = some next ∧
      next ∈ neighbors ∧
      (∀ s ∈ neighbors, cost next ≤ cost s) ∧
      (cost next < cost current →
        sa_step cost neighbors temperature random current = some next) ∧
      (¬ cost next < cost current →
        random < Real.exp ((((cost current : Int) - (cost next : Int) : Int) : ℝ) / temperature) →
        sa_step cost neighbors temperature random current = some next) ∧
      (¬ cost next < cost current →
        ¬ random < Real.exp ((((cost current : Int) - (cost next : Int) : Int) : ℝ) / temperature) →
        sa_step cost neighbors temperature random current = some current) := by
  haveI htot : IsTotal S (fun a b => cost a ≤ cost b) := ⟨fun a b => Nat.le_total _ _⟩
  haveI htrans : IsTrans S (fun a b => cost a ≤ cost b) :=
    ⟨fun _ _ _ h1 h2 => Nat.le_trans h1 h2⟩
  cases hsort : List.insertionSort (fun a b => cost a ≤ cost b) neighbors with
  | nil =>
    exfalso
    have hperm := List.perm_insertionSort (fun a b => cost a ≤ cost b) neighbors
    rw [hsort] at hperm
    exact hne hperm.symm.eq_nil
  | cons next rest =>
    have hperm := List.perm_insertionSort (fun a b => cost a ≤ cost b) neighbors
    rw [hsort] at hperm
    have hsorted := List.sorted_insertionSort (fun a b => cost a ≤ cost b) neighbors
    rw [hsort] at hsorted
    have hmem : next ∈ neighbors := hperm.mem_iff.mp (List.mem_cons_self next rest)
    have hmin : ∀ s ∈ neighbors, cost next ≤ cost s := by
      intro s hs
      have hs' : s ∈ next :: rest := hperm.mem_iff.mpr hs
      rcases List.mem_cons.mp hs' with h | h
      · subst h; exact le_refl _
      · exact List.rel_of_sorted_cons hsorted s h
    have hpos : cost next < cost current ↔
        (0 : Int) < (cost current : Int) - (cost next : Int) := by omega
    refine ⟨next, by simp, hmem, hmin, ?_, ?_, ?_⟩
    · intro h
      simp only [sa_step, hsort, if_pos (hpos.mp h)]
    · intro h hr
      have hnp : ¬ (0 : Int) < (cost current : Int) - (cost next : Int) := by omega
      simp only [sa_step, hsort, if_neg hnp, if_pos hr]
    · intro h hr
      have hnp : ¬ (0 : Int) < (cost current : Int) - (cost next : Int) := by omega
      simp only [sa_step, hsort, if_neg hnp, if_neg hr]

/-- Witness for C7 on a concrete neighbor list. -/
theorem C7_witness :
    ([3, 1, 2] : List Nat) ≠ [] ∧
    (∃ next,
      (List.insertionSort
        (fun a b => (fun n : Nat => n) a ≤ (fun n : Nat => n) b) [3, 1, 2]).head?
          = some next ∧
      next ∈ [3, 1, 2] ∧
      (∀ s ∈ [3, 1, 2], (fun n : Nat => n) next ≤ (fun n : Nat => n) s) ∧
      ((fun n : Nat => n) next < (fun n : Nat => n) 5 →
        sa_step (fun n : Nat => n) [3, 1, 2] 1 (1 / 2) 5 = some next) ∧
      (¬ (fun n : Nat => n) next < (fun n : Nat => n) 5 →
        (1 / 2 : ℝ) < Real.exp
          ((((((fun n : Nat => n) 5 : Nat) : Int)
            - (((fun n : Nat => n) next : Nat) : Int) : Int) : ℝ) / 1) →
        sa_step (fun n : Nat => n) [3, 1, 2] 1 (1 / 2) 5 = some next) ∧
      (¬ (fun n : Nat => n) next < (fun n : Nat => n) 5 →
        ¬ (1 / 2 : ℝ) < Real.exp
          ((((((fun n : Nat => n) 5 : Nat) : Int)
            - (((fun n : Nat => n) next : Nat) : Int) : Int) : ℝ) / 1) →
        sa_step (fun n : Nat => n) [3, 1, 2] 1 (1 / 2) 5 = some 5)) :=
  ⟨by decide, C7_sa_step_selection (fun n : Nat => n) [3, 1, 2] 1 (1 / 2) 5 (by decide)⟩

/-! ### Claim C8 -/

/-- C8: the annealing loop terminates on every input.  The temperature
at integer time `t ≥ 1` is `100 / t^2` and drops below `0.1` exactly
when `t ≥ 32`; consequently, whenever the neighbor generation never
returns an empty list (so no iteration panics), the loop executes its
body exactly for times `t = 1, …, 31` and returns the state accumulated
so far at `t = 32`. -/
theorem C8_schedule_terminates_at_32 :
    (∀ t : Nat, 1 ≤ t → (time_to_temperature (t : ℚ) < 1 / 10 ↔ 32 ≤ t)) ∧
    (∀ (S : Type) (cost : S → Nat) (gen : S → List S) (randoms : Nat → ℝ) (s0 : S),
      (∀ s, gen s ≠ []) →
      simulated_annealing cost gen randoms s0 =
        some ((List.range' 1 31).foldl
          (fun st u => sa_step_total cost gen randoms u st) s0)) :=
  ⟨fun t ht => temp_lt_iff t ht,
   fun _ cost gen randoms s0 hgen =>
     sa_loop_fold cost gen randoms hgen 31 1 s0 rfl (by omega)⟩

/-- Witness for C8 with a one-state search space. -/
theorem C8_witness :
    ((1 : Nat) ≤ 32 ∧ (time_to_temperature ((32 : Nat) : ℚ) < 1 / 10 ↔ 32 ≤ 32)) ∧
    ((∀ s : Unit, (fun _ : Unit => [()]) s ≠ []) ∧
      simulated_annealing (fun _ : Unit => 0) (fun _ => [()]) (fun _ => 0) () =
        some ((List.range' 1 31).foldl
          (fun st u => sa_step_total (fun _ : Unit => 0) (fun _ => [()]) (fun _ => 0) u st) ())) :=
  ⟨⟨by norm_num, C8_schedule_terminates_at_32.1 32 (by norm_num)⟩,
   ⟨fun s => by simp, C8_schedule_terminates_at_32.2 Unit (fun _ => 0) (fun _ => [()])
      (fun _ => 0) () (fun s => by simp)⟩⟩

/-! ### Claim C5 -/

/-- C5: evaluation of the source-node selection at the failing input.
`Group::search_paths` passes only `self.start` and `self.departure` to
`find_start_node_index`; for the group that sits in trip 1 at station B
it therefore selects the Transfer node at (B, time 20) — node 12 of the
worked example — although trip 1's Arrival node at B is node 0, which is
what the claim (and the TODO comment in the source) requires. -/
theorem C5_in_trip_ignored_eval :
    exGroupInTrip.in_trip = some 1 ∧
    search_paths_from exModel exGroupInTrip = some 12 ∧
    exModel.graph.nodes[12]? = some (.Transfer 20 "B") ∧
    exModel.graph.nodes[0]? = some (.Arrival 1 10 "B") ∧
    (12 : Nat) ≠ 0 := by
  refine ⟨rfl, ?_, ?_, ?_, by decide⟩ <;> decide

/-! ### Claim C6 -/

/-- C6 counterexample: when no source node can be located (here: an
empty model), `Group::search_paths` does not record the failure — it
panics via `expect` (modelled by `none`). -/
theorem C6_counterexample_panic_on_missing_source :
    search_paths (fun a b : Nat => a ≤ b) enumNone emptyModel exGroupAC = none := by
  decide

/-- C6 (amended): provided the source and sink nodes can be located, an
infeasible group — departure after arrival, or enumeration yielding no
path — is recorded as an empty path set with a `false` return and no
panic occurs; when no source or sink node can be located the function
panics instead. -/
theorem C6_failures_recorded_when_nodes_found {P : Type} (le : P → P → Prop)
    [DecidableRel le] (enum : Nat → Nat → Nat → Nat → List P)
    (M : BuildState) (g : Group) (f t : Nat)
    (hfrom : search_paths_from M g = some f)
    (hto : find_end_node_index M g.destination = some t) :
    (∃ r, search_paths le enum M g = some r) ∧
    (g.arrival < g.departure → search_paths le enum M g = some ([], false)) ∧
    (¬ g.arrival < g.departure →
      enum f t g.passengers (calculate_max_travel_duration (g.arrival - g.departure)) = [] →
      search_paths le enum M g = some ([], false)) := by
  simp only [search_paths, hfrom, hto]
  refine ⟨?_, ?_, ?_⟩
  · by_cases h : g.arrival < g.departure
    · rw [if_pos h]; exact ⟨_, rfl⟩
    · rw [if_neg h]
      split
      · exact ⟨_, rfl⟩
      · exact ⟨_, rfl⟩
  · intro h
    rw [if_pos h]
  · intro h he
    rw [if_neg h, he]
    simp [List.insertionSort]

/-- Witness for C6 on the worked example with an enumerator that finds
nothing. -/
theorem C6_witness :
    search_paths_from exModel exGroupAC = some 9 ∧
    find_end_node_index exModel exGroupAC.destination = some 13 ∧
    ((∃ r, search_paths (fun a b : Nat => a ≤ b) enumNone exModel exGroupAC = some r) ∧
     (exGroupAC.arrival < exGroupAC.departure →
       search_paths (fun a b : Nat => a ≤ b) enumNone exModel exGroupAC = some ([], false)) ∧
     (¬ exGroupAC.arrival < exGroupAC.departure →
       enumNone 9 13 exGroupAC.passengers
         (calculate_max_travel_duration (exGroupAC.arrival - exGroupAC.departure)) = [] →
       search_paths (fun a b : Nat => a ≤ b) enumNone exModel exGroupAC = some ([], false))) :=
  ⟨by decide, by decide,
   C6_failures_recorded_when_nodes_found (fun a b : Nat => a ≤ b) enumNone exModel
     exGroupAC 9 13 (by decide) (by decide)⟩

/-! ### Builder: primitive step lemmas -/

theorem addNode_graph_nodes (s : BuildState) (w : NodeWeight) :
    (addNode s w).1.graph.nodes = s.graph.nodes ++ [w] := rfl

theorem addNode_graph_edges (s : BuildState) (w : NodeWeight) :
    (addNode s w).1.graph.edges = s.graph.edges := rfl

theorem addNode_stations (s : BuildState) (w : NodeWeight) :
    (addNode s w).1.stations = s.stations := rfl

theorem addNode_sd (s : BuildState) (w : NodeWeight) :
    (addNode s w).1.stations_departures = s.stations_departures := rfl

theorem addNode_main (s : BuildState) (w : NodeWeight) :
    (addNode s w).1.station_arrival_main_node_indices
      = s.station_arrival_main_node_indices := rfl

theorem addNode_snd (s : BuildState) (w : NodeWeight) :
    (addNode s w).2 = s.graph.nodes.length := rfl

theorem addEdge_graph_nodes (s : BuildState) (a b : Nat) (w : EdgeWeight) :
    (addEdge s a b w).graph.nodes = s.graph.nodes := rfl

theorem addEdge_graph_edges (s : BuildState) (a b : Nat) (w : EdgeWeight) :
    (addEdge s a b w).graph.edges = s.graph.edges ++ [⟨a, b, w⟩] := rfl

theorem addEdge_stations (s : BuildState) (a b : Nat) (w : EdgeWeight) :
    (addEdge s a b w).stations = s.stations := rfl

theorem addEdge_sd (s : BuildState) (a b : Nat) (w : EdgeWeight) :
    (addEdge s a b w).stations_departures = s.stations_departures := rfl

theorem addEdge_main (s : BuildState) (a b : Nat) (w : EdgeWeight) :
    (addEdge s a b w).station_arrival_main_node_indices
      = s.station_arrival_main_node_indices := rfl

theorem updStation_graph (s : BuildState) (stId : String) (f : StationState → StationState) :
    (updStation s stId f).graph = s.graph := rfl

theorem updStation_sd (s : BuildState) (stId : String) (f : StationState → StationState) :
    (updStation s stId f).stations_departures = s.stations_departures := rfl

theorem updStation_main (s : BuildState) (stId : String) (f : StationState → StationState) :
    (updStation s stId f).station_arrival_main_node_indices
      = s.station_arrival_main_node_indices := rfl

theorem updStation_stations (s : BuildState) (stId : String) (f : StationState → StationState) :
    (updStation s stId f).stations
      = s.stations.map fun st => if st.id = stId then f st else st := rfl

theorem getStation_mem (s : BuildState) (id : String) (st : StationState)
    (h : getStation s id = some st) : st ∈ s.stations ∧ st.id = id := by
  refine ⟨List.mem_of_find?_eq_some h, ?_⟩
  have h2 := List.find?_some h
  simpa [beq_iff_eq] using h2

theorem find?_map_proj {α β : Type} (f : α → β) (p : β → Bool) (l l' : List α)
    (h : l.map f = l'.map f) :
    (l.find? fun a => p (f a)).map f = (l'.find? fun a => p (f a)).map f := by
  have h1 : (l.map f).find? p = (l'.map f).find? p := by rw [h]
  rw [List.find?_map, List.find?_map] at h1
  exact h1

theorem getStation_proj13 (s s' : BuildState)
    (h : s'.stations.map (fun st => (st.id, st.transfer_time, st.transfer_node_indices))
       = s.stations.map fun st => (st.id, st.transfer_time, st.transfer_node_indices))
    (id : String) :
    (getStation s' id).map (fun st => (st.id, st.transfer_time, st.transfer_node_indices))
      = (getStation s id).map fun st =>
          (st.id, st.transfer_time, st.transfer_node_indices) := by
  exact find?_map_proj (fun st => (st.id, st.transfer_time, st.transfer_node_indices))
    (fun b => b.1 == id) s'.stations s.stations h

theorem nodesExtend_refl (s : BuildState) : NodesExtend s s := ⟨[], by simp⟩

theorem nodesExtend_trans {s1 s2 s3 : BuildState}
    (h1 : NodesExtend s1 s2) (h2 : NodesExtend s2 s3) : NodesExtend s1 s3 := by
  obtain ⟨d1, hd1⟩ := h1
  obtain ⟨d2, hd2⟩ := h2
  exact ⟨d1 ++ d2, by rw [hd2, hd1, List.append_assoc]⟩

theorem lookup_extend (s s' : BuildState) (h : NodesExtend s s') (i : Nat) (w : NodeWeight)
    (hw : s.graph.nodes[i]? = some w) : s'.graph.nodes[i]? = some w := by
  obtain ⟨d, hd⟩ := h
  rw [hd, List.getElem?_append_left ((List.getElem?_eq_some_iff.mp hw).1)]
  exact hw

theorem nodeTime_extend (s s' : BuildState) (h : NodesExtend s s') (i : Nat) (w : NodeWeight)
    (hw : s.graph.nodes[i]? = some w) : nodeTime s' i = nodeTime s i := by
  unfold nodeTime
  rw [List.getD_eq_getElem?_getD, List.getD_eq_getElem?_getD,
    lookup_extend s s' h i w hw, hw]

theorem ids_of_proj13 (s s' : BuildState)
    (h : s'.stations.map (fun st => (st.id, st.transfer_time, st.transfer_node_indices))
       = s.stations.map fun st => (st.id, st.transfer_time, st.transfer_node_indices)) :
    s'.stations.map (fun st => st.id) = s.stations.map fun st => st.id := by
  have h2 := congrArg (List.map Prod.fst) h
  simpa [List.map_map, Function.comp] using h2

/-! ### Builder: the trips pass -/

theorem addTrip_nodes (s : BuildState) (t : Trip) :
    (addTrip s t).graph.nodes
      = s.graph.nodes ++ [.Arrival t.id t.arrival t.to_station,
          .Departure t.id t.departure t.from_station] := by
  simp [addTrip, addNode, addEdge, updStation]

theorem addTrip_edges (s : BuildState) (t : Trip) :
    (addTrip s t).graph.edges = s.graph.edges
      ++ [⟨s.graph.nodes.length + 1, s.graph.nodes.length,
           .RideToStation (t.arrival - t.departure) t.capacity 0⟩] := by
  simp [addTrip, addNode, addEdge, updStation]

theorem addTrip_sd (s : BuildState) (t : Trip) :
    (addTrip s t).stations_departures = s.stations_departures := rfl

theorem addTrip_main (s : BuildState) (t : Trip) :
    (addTrip s t).station_arrival_main_node_indices
      = s.station_arrival_main_node_indices := rfl

theorem addTrip_stations (s : BuildState) (t : Trip) :
    (addTrip s t).stations = s.stations.map (tripStationUpd t s.graph.nodes.length) := by
  simp only [addTrip, addNode, addEdge, updStation, List.map_map, List.length_append,
    List.length_cons, List.length_nil]
  rfl

theorem tripStationUpd_id (t : Trip) (n : Nat) (st : StationState) :
    (tripStationUpd t n st).id = st.id := by
  unfold tripStationUpd
  dsimp only
  split <;> split <;> rfl

theorem tripStationUpd_tt (t : Trip) (n : Nat) (st : StationState) :
    (tripStationUpd t n st).transfer_time = st.transfer_time := by
  unfold tripStationUpd
  dsimp only
  split <;> split <;> rfl

theorem tripStationUpd_tr (t : Trip) (n : Nat) (st : StationState) :
    (tripStationUpd t n st).transfer_node_indices = st.transfer_node_indices := by
  unfold tripStationUpd
  dsimp only
  split <;> split <;> rfl

theorem tripStationUpd_arr (t : Trip) (n : Nat) (st : StationState) :
    (tripStationUpd t n st).arrival_node_indices
      = st.arrival_node_indices ++ (if st.id = t.to_station then [(t.id, n)] else []) := by
  unfold tripStationUpd
  dsimp only
  split <;> split <;> simp_all

theorem addTrip_proj13 (s : BuildState) (t : Trip) :
    (addTrip s t).stations.map
      (fun st => (st.id, st.transfer_time, st.transfer_node_indices))
      = s.stations.map fun st => (st.id, st.transfer_time, st.transfer_node_indices) := by
  rw [addTrip_stations, List.map_map]
  apply List.map_congr_left
  intro st _
  simp [Function.comp, tripStationUpd_id, tripStationUpd_tt, tripStationUpd_tr]

theorem addTrip_filter_w (s : BuildState) (t : Trip) (pw : EdgeWeight → Bool)
    (hp : ∀ d c u, pw (.RideToStation d c u) = false) :
    (addTrip s t).graph.edges.filter (fun e => pw e.weight)
      = s.graph.edges.filter fun e => pw e.weight := by
  rw [addTrip_edges, List.filter_append]
  simp [hp]

theorem addTrip_inv (s : BuildState) (t : Trip) (hinv : Inv s)
    (hto : t.to_station ∈ s.stations.map fun st => st.id) :
    Inv (addTrip s t) := by
  have hext : NodesExtend s (addTrip s t) :=
    ⟨[.Arrival t.id t.arrival t.to_station, .Departure t.id t.departure t.from_station],
     addTrip_nodes s t⟩
  constructor
  · rw [ids_of_proj13 s (addTrip s t) (addTrip_proj13 s t)]
    exact hinv.idsND
  · intro st' hst' p hp
    rw [addTrip_stations] at hst'
    obtain ⟨st, hst, hdef⟩ := List.mem_map.mp hst'
    subst hdef
    rw [tripStationUpd_arr] at hp
    rw [tripStationUpd_id]
    rcases List.mem_append.mp hp with hold | hnew
    · obtain ⟨time, htime⟩ := hinv.arrOK st hst p hold
      exact ⟨time, lookup_extend s _ hext _ _ htime⟩
    · by_cases hcase : st.id = t.to_station
      · rw [if_pos hcase] at hnew
        simp only [List.mem_singleton] at hnew
        subst hnew
        refine ⟨t.arrival, ?_⟩
        rw [addTrip_nodes, List.getElem?_append_right (le_refl _)]
        simp [hcase]
      · rw [if_neg hcase] at hnew
        simp at hnew
  · intro st' hst' p hp
    rw [addTrip_stations] at hst'
    obtain ⟨st, hst, hdef⟩ := List.mem_map.mp hst'
    subst hdef
    rw [tripStationUpd_tr] at hp
    rw [tripStationUpd_id]
    exact lookup_extend s _ hext _ _ (hinv.trOK st hst p hp)
  · intro st' hst'
    rw [addTrip_stations] at hst'
    obtain ⟨st, hst, hdef⟩ := List.mem_map.mp hst'
    subst hdef
    rw [tripStationUpd_arr]
    by_cases hcase : st.id = t.to_station
    · rw [if_pos hcase, List.map_append, List.nodup_append]
      refine ⟨hinv.arrND st hst, by simp, ?_⟩
      intro x hx hx2
      simp only [List.map_cons, List.map_nil, List.mem_singleton] at hx2
      subst hx2
      obtain ⟨p, hp, hps⟩ := List.mem_map.mp hx
      obtain ⟨time, htime⟩ := hinv.arrOK st hst p hp
      have hlt := (List.getElem?_eq_some_iff.mp htime).1
      omega
    · rw [if_neg hcase]
      simpa using hinv.arrND st hst
  · intro st' hst'
    rw [addTrip_stations] at hst'
    obtain ⟨st, hst, hdef⟩ := List.mem_map.mp hst'
    subst hdef
    rw [tripStationUpd_tr]
    exact hinv.trND st hst
  · intro i tid time stId hlook
    rw [addTrip_nodes] at hlook
    by_cases hi : i < s.graph.nodes.length
    · rw [List.getElem?_append_left hi] at hlook
      obtain ⟨st, hst, hid, hmem⟩ := hinv.arrComplete i tid time stId hlook
      refine ⟨tripStationUpd t s.graph.nodes.length st, ?_, ?_, ?_⟩
      · rw [addTrip_stations]
        exact List.mem_map.mpr ⟨st, hst, rfl⟩
      · rw [tripStationUpd_id]; exact hid
      · rw [tripStationUpd_arr]
        exact List.mem_append_left _ hmem
    · rw [List.getElem?_append_right (by omega)] at hlook
      rcases hk : i - s.graph.nodes.length with _ | k
      · rw [hk] at hlook
        simp only [List.getElem?_cons_zero, Option.some.injEq] at hlook
        have htid : tid = t.id := by cases hlook; rfl
        have hstid : stId = t.to_station := by cases hlook; rfl
        have hieq : i = s.graph.nodes.length := by omega
        obtain ⟨st0, hst0, hid0⟩ := List.mem_map.mp hto
        refine ⟨tripStationUpd t s.graph.nodes.length st0, ?_, ?_, ?_⟩
        · rw [addTrip_stations]
          exact List.mem_map.mpr ⟨st0, hst0, rfl⟩
        · simp [tripStationUpd_id, hid0, hstid]
        · rw [tripStationUpd_arr, if_pos hid0]
          apply List.mem_append_right
          simp [htid, hieq]
      · rcases k with _ | k2
        · rw [hk] at hlook
          simp at hlook
        · rw [hk] at hlook
          simp at hlook

theorem phase1_spec : ∀ (trips : List Trip) (s : BuildState), Inv s →
    (∀ t ∈ trips, t.to_station ∈ s.stations.map fun st => st.id) →
    Inv (trips.foldl addTrip s) ∧
    NodesExtend s (trips.foldl addTrip s) ∧
    (trips.foldl addTrip s).stations_departures = s.stations_departures ∧
    (trips.foldl addTrip s).stations.map
      (fun st => (st.id, st.transfer_time, st.transfer_node_indices))
      = s.stations.map (fun st => (st.id, st.transfer_time, st.transfer_node_indices)) ∧
    (∀ pw : EdgeWeight → Bool, (∀ d c u, pw (.RideToStation d c u) = false) →
      (trips.foldl addTrip s).graph.edges.filter (fun e => pw e.weight)
        = s.graph.edges.filter fun e => pw e.weight) := by
  intro trips
  induction trips with
  | nil =>
    intro s hinv _
    exact ⟨hinv, nodesExtend_refl s, rfl, rfl, fun _ _ => rfl⟩
  | cons t ts ih =>
    intro s hinv hsts
    have hto := (hsts t (List.mem_cons_self t ts))
    have hinv1 := addTrip_inv s t hinv hto
    have hids : (addTrip s t).stations.map (fun st => st.id)
        = s.stations.map fun st => st.id :=
      ids_of_proj13 s (addTrip s t) (addTrip_proj13 s t)
    have hsts1 : ∀ u ∈ ts, u.to_station ∈ (addTrip s t).stations.map fun st => st.id := by
      intro u hu
      rw [hids]
      exact hsts u (List.mem_cons_of_mem t hu)
    obtain ⟨h1, h2, h3, h4, h5⟩ := ih (addTrip s t) hinv1 hsts1
    refine ⟨h1, ?_, ?_, ?_, ?_⟩
    · exact nodesExtend_trans ⟨_, addTrip_nodes s t⟩ h2
    · rw [List.foldl_cons] at *
      rw [h3, addTrip_sd]
    · rw [List.foldl_cons] at *
      rw [h4, addTrip_proj13]
    · intro pw hp
      rw [List.foldl_cons] at *
      rw [h5 pw hp, addTrip_filter_w s t pw hp]

/-! ### Builder: updStation and filter helpers -/

theorem filter_append_none (edges d : List Edge) (pe : Edge → Bool)
    (hd : ∀ e ∈ d, pe e = false) : (edges ++ d).filter pe = edges.filter pe := by
  rw [List.filter_append]
  have h : d.filter pe = [] := List.filter_eq_nil_iff.mpr (fun a ha => by simp [hd a ha])
  rw [h, List.append_nil]

theorem getStation_updStation (s : BuildState) (stId : String)
    (f : StationState → StationState) (hf : ∀ st, (f st).id = st.id) (id : String) :
    getStation (updStation s stId f) id
      = (getStation s id).map fun st => if st.id = stId then f st else st := by
  unfold getStation
  rw [updStation_stations, List.find?_map]
  have hpred : ((fun st : StationState => st.id == id) ∘
      fun st => if st.id = stId then f st else st)
      = fun st : StationState => st.id == id := by
    funext st
    by_cases h : st.id = stId
    · simp [Function.comp, h, hf]
    · simp [Function.comp, h]
  rw [hpred]

theorem getStation_updStation_ne (s : BuildState) (stId : String)
    (f : StationState → StationState) (hf : ∀ st, (f st).id = st.id) (id : String)
    (hne : id ≠ stId) :
    getStation (updStation s stId f) id = getStation s id := by
  rw [getStation_updStation s stId f hf id]
  cases hg : getStation s id with
  | none => rfl
  | some st =>
    have hid := (getStation_mem s id st hg).2
    simp [hid, hne]

theorem getStation_updStation_self (s : BuildState) (stId : String)
    (f : StationState → StationState) (hf : ∀ st, (f st).id = st.id) :
    getStation (updStation s stId f) stId = (getStation s stId).map f := by
  rw [getStation_updStation s stId f hf stId]
  cases hg : getStation s stId with
  | none => rfl
  | some st =>
    have hid := (getStation_mem s stId st hg).2
    simp [hid]

theorem getStation_eq_of_stations (s s' : BuildState) (h : s'.stations = s.stations)
    (id : String) : getStation s' id = getStation s id := by
  unfold getStation
  rw [h]

theorem getStation_proj14 (s s' : BuildState)
    (h : s'.stations.map (fun st => (st.id, st.transfer_time, st.arrival_node_indices,
          st.departure_node_indices))
       = s.stations.map fun st => (st.id, st.transfer_time, st.arrival_node_indices,
          st.departure_node_indices)) (id : String) :
    (getStation s' id).map (fun st => (st.id, st.transfer_time, st.arrival_node_indices,
        st.departure_node_indices))
      = (getStation s id).map fun st => (st.id, st.transfer_time, st.arrival_node_indices,
          st.departure_node_indices) := by
  exact find?_map_proj (fun st => (st.id, st.transfer_time, st.arrival_node_indices,
    st.departure_node_indices)) (fun b => b.1 == id) s'.stations s.stations h

/-! ### Builder: the departures loop of the station pass -/

theorem depStep_nodes (stId : String) (s : BuildState) (p : Nat × Nat) :
    (depStep stId s p).graph.nodes
      = s.graph.nodes ++ [.Transfer (nodeTime s p.2) stId] := by
  unfold depStep
  dsimp only
  split <;> rfl

theorem depStep_sd (stId : String) (s : BuildState) (p : Nat × Nat) :
    (depStep stId s p).stations_departures = s.stations_departures := by
  unfold depStep
  dsimp only
  split <;> rfl

theorem depStep_main (stId : String) (s : BuildState) (p : Nat × Nat) :
    (depStep stId s p).station_arrival_main_node_indices
      = s.station_arrival_main_node_indices := by
  unfold depStep
  dsimp only
  split <;> rfl

theorem depStep_stations (stId : String) (s : BuildState) (p : Nat × Nat) :
    (depStep stId s p).stations = (updStation s stId fun st =>
      { st with transfer_node_indices :=
          st.transfer_node_indices ++ [(nodeTime s p.2, s.graph.nodes.length)] }).stations := by
  unfold depStep updStation
  dsimp only
  split <;> rfl

theorem depStep_edges_delta (stId : String) (s : BuildState) (p : Nat × Nat) :
    ∃ d, (depStep stId s p).graph.edges = s.graph.edges ++ d ∧
      ∀ e ∈ d, e.weight = .Embark ∨ ∃ u, e.weight = .StayInTrain u := by
  unfold depStep
  dsimp only
  split
  · next a _ =>
    refine ⟨[⟨s.graph.nodes.length, p.2, .Embark⟩,
      ⟨a.2, p.2, .StayInTrain (nodeTime s p.2 - nodeTime
        (updStation (addEdge (addNode s (.Transfer (nodeTime s p.2) stId)).1
          (addNode s (.Transfer (nodeTime s p.2) stId)).2 p.2 .Embark) stId
          fun st => { st with transfer_node_indices :=
            st.transfer_node_indices ++ [(nodeTime s p.2,
              (addNode s (.Transfer (nodeTime s p.2) stId)).2)] }) a.2)⟩], ?_, ?_⟩
    · simp [addEdge, addNode, updStation]
    · intro e he
      rcases List.mem_cons.mp he with h | h
      · subst h; exact Or.inl rfl
      · simp only [List.mem_singleton] at h
        subst h
        exact Or.inr ⟨_, rfl⟩
  · refine ⟨[⟨s.graph.nodes.length, p.2, .Embark⟩], ?_, ?_⟩
    · simp [addEdge, addNode, updStation]
    · intro e he
      simp only [List.mem_singleton] at he
      subst he
      exact Or.inl rfl

theorem depStep_proj14 (stId : String) (s : BuildState) (p : Nat × Nat) :
    (depStep stId s p).stations.map (fun st => (st.id, st.transfer_time,
        st.arrival_node_indices, st.departure_node_indices))
      = s.stations.map fun st => (st.id, st.transfer_time, st.arrival_node_indices,
          st.departure_node_indices) := by
  rw [depStep_stations, updStation_stations]
  rw [List.map_map]
  apply List.map_congr_left
  intro st _
  by_cases h : st.id = stId <;> simp [Function.comp, h]

theorem depStep_inv (stId : String) (s : BuildState) (p : Nat × Nat) (hinv : Inv s) :
    Inv (depStep stId s p) := by
  have hnodes := depStep_nodes stId s p
  have hext : NodesExtend s (depStep stId s p) := ⟨_, hnodes⟩
  have hstations : (depStep stId s p).stations = s.stations.map fun st =>
      if st.id = stId then
        { st with transfer_node_indices :=
            st.transfer_node_indices ++ [(nodeTime s p.2, s.graph.nodes.length)] }
      else st := by
    rw [depStep_stations, updStation_stations]
  constructor
  · rw [hstations]
    have : (s.stations.map fun st =>
        if st.id = stId then
          { st with transfer_node_indices :=
              st.transfer_node_indices ++ [(nodeTime s p.2, s.graph.nodes.length)] }
        else st).map (fun st => st.id) = s.stations.map fun st => st.id := by
      rw [List.map_map]
      apply List.map_congr_left
      intro st _
      by_cases h : st.id = stId <;> simp [Function.comp, h]
    rw [this]
    exact hinv.idsND
  · intro st' hst' q hq
    rw [hstations] at hst'
    obtain ⟨st, hst, hdef⟩ := List.mem_map.mp hst'
    subst hdef
    by_cases h : st.id = stId
    · rw [if_pos h] at hq ⊢
      obtain ⟨time, htime⟩ := hinv.arrOK st hst q hq
      exact ⟨time, lookup_extend s _ hext _ _ htime⟩
    · rw [if_neg h] at hq ⊢
      obtain ⟨time, htime⟩ := hinv.arrOK st hst q hq
      exact ⟨time, lookup_extend s _ hext _ _ htime⟩
  · intro st' hst' q hq
    rw [hstations] at hst'
    obtain ⟨st, hst, hdef⟩ := List.mem_map.mp hst'
    subst hdef
    by_cases h : st.id = stId
    · rw [if_pos h] at hq ⊢
      have hq2 : q ∈ st.transfer_node_indices ++ [(nodeTime s p.2, s.graph.nodes.length)] := hq
      rcases List.mem_append.mp hq2 with hold | hnew
      · exact lookup_extend s _ hext _ _ (hinv.trOK st hst q hold)
      · simp only [List.mem_singleton] at hnew
        subst hnew
        rw [hnodes]
        show (s.graph.nodes ++ [NodeWeight.Transfer (nodeTime s p.2) stId])[s.graph.nodes.length]?
          = some (.Transfer (nodeTime s p.2) ({ st with transfer_node_indices :=
              st.transfer_node_indices ++ [(nodeTime s p.2, s.graph.nodes.length)] }).id)
        rw [List.getElem?_concat_length]
        show _ = some (NodeWeight.Transfer (nodeTime s p.2) st.id)
        rw [h]
    · rw [if_neg h] at hq ⊢
      exact lookup_extend s _ hext _ _ (hinv.trOK st hst q hq)
  · intro st' hst'
    rw [hstations] at hst'
    obtain ⟨st, hst, hdef⟩ := List.mem_map.mp hst'
    subst hdef
    by_cases h : st.id = stId <;> simp only [h, if_true, if_false] <;>
      exact hinv.arrND st hst
  · intro st' hst'
    rw [hstations] at hst'
    obtain ⟨st, hst, hdef⟩ := List.mem_map.mp hst'
    subst hdef
    by_cases h : st.id = stId
    · simp only [h, if_true]
      rw [List.map_append, List.nodup_append]
      refine ⟨hinv.trND st hst, by simp, ?_⟩
      intro x hx hx2
      simp only [List.map_cons, List.map_nil, List.mem_singleton] at hx2
      subst hx2
      obtain ⟨q, hq, hqs⟩ := List.mem_map.mp hx
      have htime := hinv.trOK st hst q hq
      have hlt := (List.getElem?_eq_some_iff.mp htime).1
      omega
    · simp only [h, if_false]
      exact hinv.trND st hst
  · intro i tid time stId' hlook
    rw [hnodes] at hlook
    by_cases hi : i < s.graph.nodes.length
    · rw [List.getElem?_append_left hi] at hlook
      obtain ⟨st, hst, hid, hmem⟩ := hinv.arrComplete i tid time stId' hlook
      refine ⟨if st.id = stId then
        { st with transfer_node_indices :=
            st.transfer_node_indices ++ [(nodeTime s p.2, s.graph.nodes.length)] }
      else st, ?_, ?_, ?_⟩
      · rw [hstations]
        exact List.mem_map.mpr ⟨st, hst, rfl⟩
      · by_cases h : st.id = stId
        · rw [if_pos h]; exact hid
        · rw [if_neg h]; exact hid
      · by_cases h : st.id = stId
        · rw [if_pos h]; exact hmem
        · rw [if_neg h]; exact hmem
    · rw [List.getElem?_append_right (by omega)] at hlook
      rcases hk : i - s.graph.nodes.length with _ | k
      · rw [hk] at hlook
        simp at hlook
      · rw [hk] at hlook
        simp at hlook

theorem depFold_spec (stId : String) : ∀ (deps : List (Nat × Nat)) (s : BuildState),
    Inv s →
    Inv (deps.foldl (depStep stId) s) ∧
    NodesExtend s (deps.foldl (depStep stId) s) ∧
    (deps.foldl (depStep stId) s).stations_departures = s.stations_departures ∧
    (deps.foldl (depStep stId) s).station_arrival_main_node_indices
      = s.station_arrival_main_node_indices ∧
    (∃ d, (deps.foldl (depStep stId) s).graph.edges = s.graph.edges ++ d ∧
      ∀ e ∈ d, e.weight = .Embark ∨ ∃ u, e.weight = .StayInTrain u) ∧
    (deps.foldl (depStep stId) s).stations.map (fun st => (st.id, st.transfer_time,
        st.arrival_node_indices, st.departure_node_indices))
      = s.stations.map fun st => (st.id, st.transfer_time, st.arrival_node_indices,
          st.departure_node_indices) := by
  intro deps
  induction deps with
  | nil =>
    intro s hinv
    exact ⟨hinv, nodesExtend_refl s, rfl, rfl, ⟨[], by simp, by simp⟩, rfl⟩
  | cons p ps ih =>
    intro s hinv
    obtain ⟨h1, h2, h3, h4, ⟨d1, hd1, hd1k⟩, h6⟩ := ih (depStep stId s p) (depStep_inv stId s p hinv)
    rw [List.foldl_cons]
    refine ⟨h1, nodesExtend_trans ⟨_, depStep_nodes stId s p⟩ h2, ?_, ?_, ?_, ?_⟩
    · rw [h3, depStep_sd]
    · rw [h4, depStep_main]
    · obtain ⟨d0, hd0, hd0k⟩ := depStep_edges_delta stId s p
      refine ⟨d0 ++ d1, ?_, ?_⟩
      · rw [hd1, hd0, List.append_assoc]
      · intro e he
        rcases List.mem_append.mp he with h | h
        · exact hd0k e h
        · exact hd1k e h
    · rw [h6, depStep_proj14]

/-! ### Builder: sorting, the transfer chain, and the arrivals loop -/

theorem inv_of_same (s s' : BuildState) (hn : s'.graph.nodes = s.graph.nodes)
    (hs : s'.stations = s.stations) (hinv : Inv s) : Inv s' := by
  constructor
  · rw [hs]; exact hinv.idsND
  · intro st hst p hp
    rw [hs] at hst
    rw [hn]
    exact hinv.arrOK st hst p hp
  · intro st hst p hp
    rw [hs] at hst
    rw [hn]
    exact hinv.trOK st hst p hp
  · intro st hst
    rw [hs] at hst
    exact hinv.arrND st hst
  · intro st hst
    rw [hs] at hst
    exact hinv.trND st hst
  · intro i tid time stId hlook
    rw [hn] at hlook
    rw [hs]
    exact hinv.arrComplete i tid time stId hlook

theorem sortStation_inv (s : BuildState) (stId : String) (hinv : Inv s) :
    Inv (updStation s stId fun st =>
      { st with transfer_node_indices :=
          List.insertionSort keyLe st.transfer_node_indices }) := by
  have hstations := updStation_stations s stId fun st =>
    { st with transfer_node_indices := List.insertionSort keyLe st.transfer_node_indices }
  constructor
  · rw [hstations]
    have : (s.stations.map fun st => if st.id = stId then
        { st with transfer_node_indices :=
            List.insertionSort keyLe st.transfer_node_indices } else st).map
          (fun st => st.id) = s.stations.map fun st => st.id := by
      rw [List.map_map]
      apply List.map_congr_left
      intro st _
      by_cases h : st.id = stId <;> simp [Function.comp, h]
    rw [this]
    exact hinv.idsND
  · intro st' hst' p hp
    rw [hstations] at hst'
    obtain ⟨st, hst, hdef⟩ := List.mem_map.mp hst'
    subst hdef
    by_cases h : st.id = stId
    · rw [if_pos h] at hp ⊢
      exact hinv.arrOK st hst p hp
    · rw [if_neg h] at hp ⊢
      exact hinv.arrOK st hst p hp
  · intro st' hst' p hp
    rw [hstations] at hst'
    obtain ⟨st, hst, hdef⟩ := List.mem_map.mp hst'
    subst hdef
    by_cases h : st.id = stId
    · rw [if_pos h] at hp ⊢
      have hp2 : p ∈ List.insertionSort keyLe st.transfer_node_indices := hp
      have hmem := (List.perm_insertionSort keyLe st.transfer_node_indices).mem_iff.mp hp2
      exact hinv.trOK st hst p hmem
    · rw [if_neg h] at hp ⊢
      exact hinv.trOK st hst p hp
  · intro st' hst'
    rw [hstations] at hst'
    obtain ⟨st, hst, hdef⟩ := List.mem_map.mp hst'
    subst hdef
    by_cases h : st.id = stId
    · rw [if_pos h]
      exact hinv.arrND st hst
    · rw [if_neg h]
      exact hinv.arrND st hst
  · intro st' hst'
    rw [hstations] at hst'
    obtain ⟨st, hst, hdef⟩ := List.mem_map.mp hst'
    subst hdef
    by_cases h : st.id = stId
    · rw [if_pos h]
      have hperm := (List.perm_insertionSort keyLe st.transfer_node_indices).map Prod.snd
      exact hperm.nodup_iff.mpr (hinv.trND st hst)
    · rw [if_neg h]
      exact hinv.trND st hst
  · intro i tid time stId' hlook
    obtain ⟨st, hst, hid, hmem⟩ := hinv.arrComplete i tid time stId' hlook
    refine ⟨if st.id = stId then
      { st with transfer_node_indices :=
          List.insertionSort keyLe st.transfer_node_indices } else st, ?_, ?_, ?_⟩
    · rw [hstations]
      exact List.mem_map.mpr ⟨st, hst, rfl⟩
    · by_cases h : st.id = stId
      · rw [if_pos h]; exact hid
      · rw [if_neg h]; exact hid
    · by_cases h : st.id = stId
      · rw [if_pos h]; exact hmem
      · rw [if_neg h]; exact hmem

theorem addStayEdges_same : ∀ (l : List (Nat × Nat)) (s : BuildState),
    (addStayEdges s l).graph.nodes = s.graph.nodes ∧
    (addStayEdges s l).stations = s.stations ∧
    (addStayEdges s l).stations_departures = s.stations_departures ∧
    (addStayEdges s l).station_arrival_main_node_indices
      = s.station_arrival_main_node_indices := by
  intro l
  induction l with
  | nil => intro s; exact ⟨rfl, rfl, rfl, rfl⟩
  | cons a tail ih =>
    intro s
    cases tail with
    | nil => exact ⟨rfl, rfl, rfl, rfl⟩
    | cons b rest =>
      rw [addStayEdges]
      exact ih (addEdge s a.2 b.2 (.StayAtStation (b.1 - a.1)))

theorem addStayEdges_edges : ∀ (l : List (Nat × Nat)) (s : BuildState),
    (addStayEdges s l).graph.edges = s.graph.edges ++ chainStayEdges l := by
  intro l
  induction l with
  | nil => intro s; simp [addStayEdges, chainStayEdges]
  | cons a tail ih =>
    intro s
    cases tail with
    | nil => simp [addStayEdges, chainStayEdges]
    | cons b rest =>
      rw [addStayEdges, ih (addEdge s a.2 b.2 (.StayAtStation (b.1 - a.1))), chainStayEdges]
      simp [addEdge]

theorem chainStay_stay : ∀ (l : List (Nat × Nat)) (e : Edge), e ∈ chainStayEdges l →
    ∃ u, e.weight = .StayAtStation u := by
  intro l
  induction l with
  | nil => intro e he; simp [chainStayEdges] at he
  | cons a tail ih =>
    intro e he
    cases tail with
    | nil => simp [chainStayEdges] at he
    | cons b rest =>
      rw [chainStayEdges] at he
      rcases List.mem_cons.mp he with h | h
      · subst h; exact ⟨_, rfl⟩
      · exact ih e h

theorem arrStep_same (main_idx : Nat) (tr : List (Nat × Nat)) (tt : Nat)
    (s : BuildState) (p : Nat × Nat) :
    (arrStep main_idx tr tt s p).graph.nodes = s.graph.nodes ∧
    (arrStep main_idx tr tt s p).stations = s.stations ∧
    (arrStep main_idx tr tt s p).stations_departures = s.stations_departures ∧
    (arrStep main_idx tr tt s p).station_arrival_main_node_indices
      = s.station_arrival_main_node_indices := by
  unfold arrStep
  dsimp only
  split <;> exact ⟨rfl, rfl, rfl, rfl⟩

theorem arrStep_edges_some (main_idx : Nat) (tr : List (Nat × Nat)) (tt : Nat)
    (s : BuildState) (p : Nat × Nat) (q : Nat × Nat)
    (h : tr.find? (fun r => decide (nodeTime s p.2 + tt ≤ r.1)) = some q) :
    (arrStep main_idx tr tt s p).graph.edges = s.graph.edges
      ++ [⟨p.2, main_idx, .MainArrivalRelation⟩, ⟨p.2, q.2, .Alight tt⟩] := by
  unfold arrStep
  dsimp only
  have hnt : nodeTime (addEdge s p.2 main_idx .MainArrivalRelation) p.2 = nodeTime s p.2 := rfl
  rw [hnt, h]
  simp [addEdge]

theorem arrStep_edges_none (main_idx : Nat) (tr : List (Nat × Nat)) (tt : Nat)
    (s : BuildState) (p : Nat × Nat)
    (h : tr.find? (fun r => decide (nodeTime s p.2 + tt ≤ r.1)) = none) :
    (arrStep main_idx tr tt s p).graph.edges = s.graph.edges
      ++ [⟨p.2, main_idx, .MainArrivalRelation⟩] := by
  unfold arrStep
  dsimp only
  have hnt : nodeTime (addEdge s p.2 main_idx .MainArrivalRelation) p.2 = nodeTime s p.2 := rfl
  rw [hnt, h]
  rfl

theorem arrFold_spec (main_idx : Nat) (tr : List (Nat × Nat)) (tt : Nat) :
    ∀ (arrs : List (Nat × Nat)) (s : BuildState),
    (arrs.foldl (arrStep main_idx tr tt) s).graph.nodes = s.graph.nodes ∧
    (arrs.foldl (arrStep main_idx tr tt) s).stations = s.stations ∧
    (arrs.foldl (arrStep main_idx tr tt) s).stations_departures = s.stations_departures ∧
    (arrs.foldl (arrStep main_idx tr tt) s).station_arrival_main_node_indices
      = s.station_arrival_main_node_indices ∧
    (arrs.foldl (arrStep main_idx tr tt) s).graph.edges.filter
        (fun e => e.weight.is_alight)
      = s.graph.edges.filter (fun e => e.weight.is_alight)
        ++ arrs.filterMap (fun p =>
            (tr.find? fun q => decide (nodeTime s p.2 + tt ≤ q.1)).map
              fun q => ⟨p.2, q.2, .Alight tt⟩) ∧
    (∀ pw : EdgeWeight → Bool, pw .MainArrivalRelation = false →
      (∀ u, pw (.Alight u) = false) →
      (arrs.foldl (arrStep main_idx tr tt) s).graph.edges.filter (fun e => pw e.weight)
        = s.graph.edges.filter fun e => pw e.weight) := by
  intro arrs
  induction arrs with
  | nil => intro s; exact ⟨rfl, rfl, rfl, rfl, by simp, fun _ _ _ => rfl⟩
  | cons p rest ih =>
    intro s
    rw [List.foldl_cons]
    obtain ⟨i1, i2, i3, i4, i5, i6⟩ := ih (arrStep main_idx tr tt s p)
    obtain ⟨a1, a2, a3, a4⟩ := arrStep_same main_idx tr tt s p
    have hnt : ∀ x, nodeTime (arrStep main_idx tr tt s p) x = nodeTime s x := by
      intro x
      unfold nodeTime
      rw [a1]
    refine ⟨by rw [i1, a1], by rw [i2, a2], by rw [i3, a3], by rw [i4, a4], ?_, ?_⟩
    · rw [i5]
      have hcongr : rest.filterMap (fun p' =>
          (tr.find? fun q => decide (nodeTime (arrStep main_idx tr tt s p) p'.2 + tt ≤ q.1)).map
            fun q => Edge.mk p'.2 q.2 (EdgeWeight.Alight tt))
          = rest.filterMap fun p' =>
            (tr.find? fun q => decide (nodeTime s p'.2 + tt ≤ q.1)).map
              fun q => Edge.mk p'.2 q.2 (EdgeWeight.Alight tt) :=
        List.filterMap_congr fun p' _ => by rw [hnt]
      rw [hcongr]
      cases hq : tr.find? (fun q => decide (nodeTime s p.2 + tt ≤ q.1)) with
      | some q =>
        rw [arrStep_edges_some main_idx tr tt s p q hq, List.filter_append,
          List.filterMap_cons]
        simp only [hq, Option.map_some]
        simp [EdgeWeight.is_alight, List.append_assoc]
      | none =>
        rw [arrStep_edges_none main_idx tr tt s p hq, List.filter_append,
          List.filterMap_cons]
        simp only [hq, Option.map_none]
        simp [EdgeWeight.is_alight]
    · intro pw h1 h2
      rw [i6 pw h1 h2]
      cases hq : tr.find? (fun q => decide (nodeTime s p.2 + tt ≤ q.1)) with
      | some q =>
        rw [arrStep_edges_some main_idx tr tt s p q hq]
        exact filter_append_none _ _ _ (by
          intro e he
          rcases List.mem_cons.mp he with h | h
          · subst h; simpa using h1
          · simp only [List.mem_singleton] at h
            subst h
            simpa using h2 tt)
      | none =>
        rw [arrStep_edges_none main_idx tr tt s p hq]
        exact filter_append_none _ _ _ (by
          intro e he
          simp only [List.mem_singleton] at he
          subst he
          simpa using h1)

/-! ### Builder: the full station pass -/

theorem addNode_inv (s : BuildState) (w : NodeWeight)
    (hw : ∀ tid time stId, w ≠ .Arrival tid time stId) (hinv : Inv s) :
    Inv (addNode s w).1 := by
  have hext : NodesExtend s (addNode s w).1 := ⟨[w], addNode_graph_nodes s w⟩
  constructor
  · rw [addNode_stations]; exact hinv.idsND
  · intro st hst p hp
    rw [addNode_stations] at hst
    obtain ⟨time, htime⟩ := hinv.arrOK st hst p hp
    exact ⟨time, lookup_extend s _ hext _ _ htime⟩
  · intro st hst p hp
    rw [addNode_stations] at hst
    exact lookup_extend s _ hext _ _ (hinv.trOK st hst p hp)
  · intro st hst
    rw [addNode_stations] at hst
    exact hinv.arrND st hst
  · intro st hst
    rw [addNode_stations] at hst
    exact hinv.trND st hst
  · intro i tid time stId hlook
    rw [addNode_graph_nodes] at hlook
    by_cases hi : i < s.graph.nodes.length
    · rw [List.getElem?_append_left hi] at hlook
      obtain ⟨st, hst, hid, hmem⟩ := hinv.arrComplete i tid time stId hlook
      exact ⟨st, by rw [addNode_stations]; exact hst, hid, hmem⟩
    · rw [List.getElem?_append_right (by omega)] at hlook
      rcases hk : i - s.graph.nodes.length with _ | k
      · rw [hk] at hlook
        simp only [List.getElem?_cons_zero, Option.some.injEq] at hlook
        exact absurd hlook (hw tid time stId)
      · rw [hk] at hlook
        simp at hlook

theorem depFold_getStation_ne (stId : String) : ∀ (deps : List (Nat × Nat))
    (s : BuildState) (id : String), id ≠ stId →
    getStation (deps.foldl (depStep stId) s) id = getStation s id := by
  intro deps
  induction deps with
  | nil => intro s id _; rfl
  | cons p ps ih =>
    intro s id hne
    rw [List.foldl_cons, ih (depStep stId s p) id hne]
    rw [getStation_eq_of_stations (updStation s stId fun st =>
      { st with transfer_node_indices :=
          st.transfer_node_indices ++ [(nodeTime s p.2, s.graph.nodes.length)] })
      (depStep stId s p) (depStep_stations stId s p) id]
    exact getStation_updStation_ne s stId (fun st =>
      { st with transfer_node_indices :=
          st.transfer_node_indices ++ [(nodeTime s p.2, s.graph.nodes.length)] })
      (fun st => rfl) id hne

theorem chainStay_filter_self (l : List (Nat × Nat)) :
    (chainStayEdges l).filter (fun e => e.weight.is_stay_at_station)
      = chainStayEdges l := by
  rw [List.filter_eq_self]
  intro e he
  obtain ⟨u, hu⟩ := chainStay_stay l e he
  simp [hu, EdgeWeight.is_stay_at_station]

theorem aBlock_stable (s s' : BuildState) (stId : String) (tr : List (Nat × Nat))
    (hg : getStation s' stId = getStation s stId)
    (hext : NodesExtend s s')
    (hb : ∀ st, getStation s stId = some st → ∀ p ∈ st.arrival_node_indices,
       ∃ w, s.graph.nodes[p.2]? = some w) :
    aBlock s' stId tr = aBlock s stId tr := by
  unfold aBlock
  rw [hg]
  rcases hst : getStation s stId with _ | st
  · rfl
  · apply List.filterMap_congr
    intro p hp
    obtain ⟨w, hw⟩ := hb st hst p hp
    rw [nodeTime_extend s s' hext p.2 w hw]

theorem aBlock_graph_eq (s s' : BuildState) (stId : String) (tr : List (Nat × Nat))
    (hg : getStation s' stId = getStation s stId)
    (hn : s'.graph.nodes = s.graph.nodes) :
    aBlock s' stId tr = aBlock s stId tr := by
  unfold aBlock
  rw [hg]
  rcases hst : getStation s stId with _ | st
  · rfl
  · apply List.filterMap_congr
    intro p _
    have : nodeTime s' p.2 = nodeTime s p.2 := by
      unfold nodeTime
      rw [hn]
    rw [this]

theorem processStation_spec (s : BuildState) (stId : String) (hinv : Inv s)
    (hex : ∃ st0, getStation s stId = some st0) :
    ∃ tr, Inv (processStation s stId) ∧
    NodesExtend s (processStation s stId) ∧
    (processStation s stId).stations_departures
      = s.stations_departures ++ [(stId, tr)] ∧
    List.Sorted keyLe tr ∧
    (∀ id, id ≠ stId → getStation (processStation s stId) id = getStation s id) ∧
    (∃ stF, getStation (processStation s stId) stId = some stF ∧
      stF.transfer_node_indices = tr) ∧
    (processStation s stId).graph.edges.filter (fun e => e.weight.is_stay_at_station)
      = s.graph.edges.filter (fun e => e.weight.is_stay_at_station)
        ++ chainStayEdges tr ∧
    (processStation s stId).graph.edges.filter (fun e => e.weight.is_alight)
      = s.graph.edges.filter (fun e => e.weight.is_alight)
        ++ aBlock (processStation s stId) stId tr ∧
    (processStation s stId).graph.edges.filter (fun e => e.weight.is_walk_to_station)
      = s.graph.edges.filter fun e => e.weight.is_walk_to_station := by
  obtain ⟨st0, hst0⟩ := hex
  set sA := (addNode s (.MainArrival stId)).1 with hsA
  set deps := ((getStation sA stId).map (fun st => st.departure_node_indices)).getD []
    with hdeps
  set s2 := deps.foldl (depStep stId) sA with hs2
  set s3 := updStation s2 stId (fun st =>
    { st with transfer_node_indices :=
        List.insertionSort keyLe st.transfer_node_indices }) with hs3
  set tr := ((getStation s3 stId).map (fun st => st.transfer_node_indices)).getD []
    with htr
  set s4 := addStayEdges s3 tr with hs4
  set arrs := ((getStation s4 stId).map (fun st => st.arrival_node_indices)).getD []
    with harrs
  set tt := ((getStation s4 stId).map (fun st => st.transfer_time)).getD 0 with htt
  set s5 := arrs.foldl (arrStep s.graph.nodes.length tr tt) s4 with hs5
  have hres : processStation s stId = { s5 with
      stations_departures := s5.stations_departures ++ [(stId, tr)],
      station_arrival_main_node_indices :=
        s5.station_arrival_main_node_indices ++ [(stId, s.graph.nodes.length)] } := rfl
  -- invariants along the pipeline
  have hinvA : Inv sA := addNode_inv s (.MainArrival stId) (by intro _ _ _ h; cases h) hinv
  obtain ⟨hinv2, hext2, hsd2, hmain2, ⟨d2, hd2, hd2k⟩, hproj2⟩ := depFold_spec stId deps sA hinvA
  have hinv3 : Inv s3 := sortStation_inv s2 stId hinv2
  obtain ⟨hn4, hst4, hsd4, hmain4⟩ := addStayEdges_same tr s3
  have hinv4 : Inv s4 := inv_of_same s3 s4 hn4 hst4 hinv3
  obtain ⟨hn5, hst5, hsd5, hmain5, halight5, hfilters5⟩ :=
    arrFold_spec s.graph.nodes.length tr tt arrs s4
  have hinv5 : Inv s5 := inv_of_same s4 s5 hn5 hst5 hinv4
  -- station lookups along the pipeline
  have hgA : getStation sA stId = some st0 := hst0
  have hproj14 := getStation_proj14 sA s2 hproj2 stId
  rw [hgA] at hproj14
  obtain ⟨st2, hgst2⟩ : ∃ st2, getStation s2 stId = some st2 := by
    rcases hg2 : getStation s2 stId with _ | st2
    · rw [hg2] at hproj14; simp at hproj14
    · exact ⟨st2, rfl⟩
  have hg3 : getStation s3 stId
      = some { st2 with
          transfer_node_indices := List.insertionSort keyLe st2.transfer_node_indices } := by
    rw [hs3, getStation_updStation_self s2 stId (fun st =>
      { st with transfer_node_indices :=
          List.insertionSort keyLe st.transfer_node_indices }) (fun st => rfl), hgst2]
    rfl
  have htr_eq : tr = List.insertionSort keyLe st2.transfer_node_indices := by
    rw [htr, hg3]
    rfl
  have hsorted : List.Sorted keyLe tr := by
    rw [htr_eq]
    exact List.sorted_insertionSort keyLe st2.transfer_node_indices
  have hg4 : getStation s4 stId = getStation s3 stId :=
    getStation_eq_of_stations s3 s4 hst4 stId
  have harrs_eq : arrs = st2.arrival_node_indices := by
    rw [harrs, hg4, hg3]
    rfl
  have htt_eq : tt = st2.transfer_time := by
    rw [htt, hg4, hg3]
    rfl
  have hg5 : getStation s5 stId = getStation s4 stId :=
    getStation_eq_of_stations s4 s5 hst5 stId
  have hgres : getStation (processStation s stId) stId = getStation s5 stId := by
    rw [hres]
    rfl
  -- conclusions
  refine ⟨tr, ?_, ?_, ?_, hsorted, ?_, ?_, ?_, ?_, ?_⟩
  · exact inv_of_same s5 (processStation s stId) (by rw [hres]) (by rw [hres]) hinv5
  · refine nodesExtend_trans ⟨[.MainArrival stId], addNode_graph_nodes s _⟩
      (nodesExtend_trans hext2 ?_)
    have h34 : s3.graph.nodes = s2.graph.nodes := rfl
    refine ⟨[], ?_⟩
    rw [hres]
    show s5.graph.nodes = s3.graph.nodes ++ []
    rw [hn5, hn4, h34, List.append_nil]
  · rw [hres]
    show s5.stations_departures ++ [(stId, tr)] = s.stations_departures ++ [(stId, tr)]
    rw [hsd5, hsd4]
    show s2.stations_departures ++ [(stId, tr)] = _
    rw [hsd2]
    rfl
  · intro id hne
    have h1 : getStation (processStation s stId) id = getStation s5 id := by
      rw [hres]; rfl
    have h2 : getStation s5 id = getStation s4 id :=
      getStation_eq_of_stations s4 s5 hst5 id
    have h3 : getStation s4 id = getStation s3 id :=
      getStation_eq_of_stations s3 s4 hst4 id
    have h4 : getStation s3 id = getStation s2 id := by
      rw [hs3]
      exact getStation_updStation_ne s2 stId (fun st =>
        { st with transfer_node_indices :=
            List.insertionSort keyLe st.transfer_node_indices }) (fun st => rfl) id hne
    have h5 : getStation s2 id = getStation sA id :=
      depFold_getStation_ne stId deps sA id hne
    rw [h1, h2, h3, h4, h5]
    rfl
  · refine ⟨{ st2 with
      transfer_node_indices := List.insertionSort keyLe st2.transfer_node_indices }, ?_, ?_⟩
    · rw [hgres, hg5, hg4, hg3]
    · rw [htr_eq]
  · -- stay filter
    have hstayres : (processStation s stId).graph.edges = s5.graph.edges := by
      rw [hres]
    rw [hstayres]
    rw [hfilters5 (fun w => w.is_stay_at_station) rfl (fun u => rfl)]
    rw [hs4, addStayEdges_edges tr s3, List.filter_append, chainStay_filter_self]
    have h32 : s3.graph.edges = s2.graph.edges := rfl
    rw [h32, hd2]
    rw [filter_append_none _ _ _ (by
      intro e he
      rcases hd2k e he with h | ⟨u, h⟩ <;> simp [h, EdgeWeight.is_stay_at_station])]
    rfl
  · -- alight filter
    have hstayres : (processStation s stId).graph.edges = s5.graph.edges := by
      rw [hres]
    rw [hstayres, halight5]
    have h1 : s4.graph.edges.filter (fun e => e.weight.is_alight)
        = s.graph.edges.filter fun e => e.weight.is_alight := by
      rw [hs4, addStayEdges_edges tr s3, List.filter_append]
      have hnil : (chainStayEdges tr).filter (fun e => e.weight.is_alight) = [] :=
        List.filter_eq_nil_iff.mpr fun e he => by
          obtain ⟨u, hu⟩ := chainStay_stay tr e he
          simp [hu, EdgeWeight.is_alight]
      have h32 : s3.graph.edges = s2.graph.edges := rfl
      rw [hnil, List.append_nil, h32, hd2]
      rw [filter_append_none _ _ _ (by
        intro e he
        rcases hd2k e he with h | ⟨u, h⟩ <;> simp [h, EdgeWeight.is_alight])]
      rfl
    rw [h1]
    congr 1
    -- the accumulated block equals aBlock of the final state
    have hgres2 : getStation (processStation s stId) stId
        = some { st2 with
            transfer_node_indices := List.insertionSort keyLe st2.transfer_node_indices } := by
      rw [hgres, hg5, hg4, hg3]
    unfold aBlock
    rw [hgres2]
    have hnres : (processStation s stId).graph.nodes = s4.graph.nodes := by
      rw [hres]
      show s5.graph.nodes = s4.graph.nodes
      exact hn5
    have harr2 : ({ st2 with
        transfer_node_indices := List.insertionSort keyLe st2.transfer_node_indices }
          : StationState).arrival_node_indices = arrs := by rw [harrs_eq]
    have htt2 : ({ st2 with
        transfer_node_indices := List.insertionSort keyLe st2.transfer_node_indices }
          : StationState).transfer_time = tt := by rw [htt_eq]
    rw [harr2, htt2]
    apply List.filterMap_congr
    intro p _
    have : nodeTime (processStation s stId) p.2 = nodeTime s4 p.2 := by
      unfold nodeTime
      rw [hnres]
    rw [this]
  · -- walk filter
    have hstayres : (processStation s stId).graph.edges = s5.graph.edges := by
      rw [hres]
    rw [hstayres]
    rw [hfilters5 (fun w => w.is_walk_to_station) rfl (fun u => rfl)]
    rw [hs4, addStayEdges_edges tr s3, List.filter_append]
    have hnil : (chainStayEdges tr).filter (fun e => e.weight.is_walk_to_station) = [] :=
      List.filter_eq_nil_iff.mpr fun e he => by
        obtain ⟨u, hu⟩ := chainStay_stay tr e he
        simp [hu, EdgeWeight.is_walk_to_station]
    have h32 : s3.graph.edges = s2.graph.edges := rfl
    rw [hnil, List.append_nil, h32, hd2]
    rw [filter_append_none _ _ _ (by
      intro e he
      rcases hd2k e he with h | ⟨u, h⟩ <;> simp [h, EdgeWeight.is_walk_to_station])]
    rfl

/-! ### Builder: the station pass over all stations -/

theorem phase2_spec : ∀ (L : List String) (s : BuildState),
    Inv s → SdInv s → Pending s L →
    s.graph.edges.filter (fun e => e.weight.is_stay_at_station)
      = (s.stations_departures.map fun p => chainStayEdges p.2).flatten →
    s.graph.edges.filter (fun e => e.weight.is_alight)
      = (s.stations_departures.map fun p => aBlock s p.1 p.2).flatten →
    Inv (L.foldl processStation s) ∧
    SdInv (L.foldl processStation s) ∧
    NodesExtend s (L.foldl processStation s) ∧
    ((L.foldl processStation s).graph.edges.filter (fun e => e.weight.is_stay_at_station)
      = ((L.foldl processStation s).stations_departures.map
          fun p => chainStayEdges p.2).flatten) ∧
    ((L.foldl processStation s).graph.edges.filter (fun e => e.weight.is_alight)
      = ((L.foldl processStation s).stations_departures.map
          fun p => aBlock (L.foldl processStation s) p.1 p.2).flatten) ∧
    ((L.foldl processStation s).graph.edges.filter (fun e => e.weight.is_walk_to_station)
      = s.graph.edges.filter fun e => e.weight.is_walk_to_station) ∧
    (∀ id ∈ L, ∃ trv, (id, trv) ∈ (L.foldl processStation s).stations_departures) ∧
    (∀ p ∈ s.stations_departures, p ∈ (L.foldl processStation s).stations_departures) ∧
    (∀ id, id ∉ L → getStation (L.foldl processStation s) id = getStation s id) := by
  intro L
  induction L with
  | nil =>
    intro s hinv hsd hpend hstay halight
    exact ⟨hinv, hsd, nodesExtend_refl s, hstay, halight, rfl,
      by simp, fun p hp => hp, fun id _ => rfl⟩
  | cons stId L' ih =>
    intro s hinv hsd hpend hstay halight
    obtain ⟨hnodup, hhas, hnotin⟩ := hpend
    obtain ⟨st0, hst0, _⟩ := hhas stId (List.mem_cons_self stId L')
    obtain ⟨tr, pInv, pExt, pSd, pSorted, pGetNe, ⟨stF, pGetSelf, pTrF⟩,
      pStay, pAlight, pWalk⟩ := processStation_spec s stId hinv ⟨st0, hst0⟩
    have hne_of_sd : ∀ p ∈ s.stations_departures, p.1 ≠ stId := by
      intro p hp heq
      exact hnotin p hp (heq ▸ List.mem_cons_self stId L')
    -- old aBlock entries are stable under processing the new station
    have hblocks : ∀ p ∈ s.stations_departures,
        aBlock (processStation s stId) p.1 p.2 = aBlock s p.1 p.2 := by
      intro p hp
      apply aBlock_stable s (processStation s stId) p.1 p.2
        (pGetNe p.1 (hne_of_sd p hp)) pExt
      intro st hgst q hq
      have hm := getStation_mem s p.1 st hgst
      obtain ⟨time, htime⟩ := hinv.arrOK st hm.1 q hq
      exact ⟨_, htime⟩
    have hsd' : SdInv (processStation s stId) := by
      obtain ⟨sdND, sdSorted, sdMirror⟩ := hsd
      refine ⟨?_, ?_, ?_⟩
      · rw [pSd, List.map_append, List.nodup_append]
        refine ⟨sdND, by simp, ?_⟩
        intro x hx hx2
        simp only [List.map_cons, List.map_nil, List.mem_singleton] at hx2
        subst hx2
        obtain ⟨p, hp, hps⟩ := List.mem_map.mp hx
        exact hne_of_sd p hp hps
      · intro p hp
        rw [pSd] at hp
        rcases List.mem_append.mp hp with h | h
        · exact sdSorted p h
        · simp only [List.mem_singleton] at h
          subst h
          exact pSorted
      · intro p hp
        rw [pSd] at hp
        rcases List.mem_append.mp hp with h | h
        · obtain ⟨st, hgst, htr2⟩ := sdMirror p h
          exact ⟨st, by rw [pGetNe p.1 (hne_of_sd p h)]; exact hgst, htr2⟩
        · simp only [List.mem_singleton] at h
          subst h
          exact ⟨stF, pGetSelf, pTrF⟩
    have hpend' : Pending (processStation s stId) L' := by
      refine ⟨(List.nodup_cons.mp hnodup).2, ?_, ?_⟩
      · intro id hid
        have hne : id ≠ stId := by
          intro heq
          exact (List.nodup_cons.mp hnodup).1 (heq ▸ hid)
        obtain ⟨st, hgst, htr2⟩ := hhas id (List.mem_cons_of_mem stId hid)
        exact ⟨st, by rw [pGetNe id hne]; exact hgst, htr2⟩
      · intro p hp
        rw [pSd] at hp
        rcases List.mem_append.mp hp with h | h
        · intro hmem
          exact hnotin p h (List.mem_cons_of_mem stId hmem)
        · simp only [List.mem_singleton] at h
          subst h
          exact (List.nodup_cons.mp hnodup).1
    have hstay' : (processStation s stId).graph.edges.filter
        (fun e => e.weight.is_stay_at_station)
        = ((processStation s stId).stations_departures.map
            fun p => chainStayEdges p.2).flatten := by
      rw [pStay, pSd, List.map_append, List.flatten_append, hstay]
      simp
    have halight' : (processStation s stId).graph.edges.filter
        (fun e => e.weight.is_alight)
        = ((processStation s stId).stations_departures.map
            fun p => aBlock (processStation s stId) p.1 p.2).flatten := by
      rw [pAlight, pSd, List.map_append, List.flatten_append, halight]
      have hcongr : s.stations_departures.map
          (fun p => aBlock (processStation s stId) p.1 p.2)
          = s.stations_departures.map fun p => aBlock s p.1 p.2 :=
        List.map_congr_left fun p hp => hblocks p hp
      rw [hcongr]
      simp
    obtain ⟨i1, i2, i3, i4, i5, i6, i7, i8, i9⟩ :=
      ih (processStation s stId) pInv hsd' hpend' hstay' halight'
    rw [List.foldl_cons]
    refine ⟨i1, i2, nodesExtend_trans pExt i3, i4, i5, ?_, ?_, ?_, ?_⟩
    · rw [i6, pWalk]
    · intro id hid
      rcases List.mem_cons.mp hid with h | h
      · subst h
        refine ⟨tr, i8 (id, tr) ?_⟩
        rw [pSd]
        exact List.mem_append_right _ (List.mem_singleton.mpr rfl)
      · exact i7 id h
    · intro p hp
      apply i8
      rw [pSd]
      exact List.mem_append_left _ hp
    · intro id hid
      have hne : id ≠ stId := fun heq => hid (heq ▸ List.mem_cons_self stId L')
      have hni : id ∉ L' := fun h => hid (List.mem_cons_of_mem stId h)
      rw [i9 id hni, pGetNe id hne]

/-! ### Builder: the footpaths pass -/

theorem walkFoldAux (toTr : List (Nat × Nat)) (dur : Nat) :
    ∀ (arrs : List (Nat × Nat)) (s : BuildState),
    (arrs.foldl (fun s1 p =>
        let earliest_transfer_time := nodeTime s1 p.2 + dur
        match toTr.find? (fun q => decide (earliest_transfer_time ≤ q.1)) with
        | some q => addEdge s1 p.2 q.2 (.WalkToStation dur)
        | none => s1) s).graph.nodes = s.graph.nodes ∧
    (arrs.foldl (fun s1 p =>
        let earliest_transfer_time := nodeTime s1 p.2 + dur
        match toTr.find? (fun q => decide (earliest_transfer_time ≤ q.1)) with
        | some q => addEdge s1 p.2 q.2 (.WalkToStation dur)
        | none => s1) s).stations = s.stations ∧
    (arrs.foldl (fun s1 p =>
        let earliest_transfer_time := nodeTime s1 p.2 + dur
        match toTr.find? (fun q => decide (earliest_transfer_time ≤ q.1)) with
        | some q => addEdge s1 p.2 q.2 (.WalkToStation dur)
        | none => s1) s).stations_departures = s.stations_departures ∧
    (arrs.foldl (fun s1 p =>
        let earliest_transfer_time := nodeTime s1 p.2 + dur
        match toTr.find? (fun q => decide (earliest_transfer_time ≤ q.1)) with
        | some q => addEdge s1 p.2 q.2 (.WalkToStation dur)
        | none => s1) s).graph.edges.filter (fun e => e.weight.is_walk_to_station)
      = s.graph.edges.filter (fun e => e.weight.is_walk_to_station)
        ++ arrs.filterMap (fun p =>
            (toTr.find? fun q => decide (nodeTime s p.2 + dur ≤ q.1)).map
              fun q => Edge.mk p.2 q.2 (.WalkToStation dur)) ∧
    (∀ pw : EdgeWeight → Bool, (∀ u, pw (.WalkToStation u) = false) →
      (arrs.foldl (fun s1 p =>
          let earliest_transfer_time := nodeTime s1 p.2 + dur
          match toTr.find? (fun q => decide (earliest_transfer_time ≤ q.1)) with
          | some q => addEdge s1 p.2 q.2 (.WalkToStation dur)
          | none => s1) s).graph.edges.filter (fun e => pw e.weight)
        = s.graph.edges.filter fun e => pw e.weight) := by
  intro arrs
  induction arrs with
  | nil => intro s; exact ⟨rfl, rfl, rfl, by simp, fun _ _ => rfl⟩
  | cons p rest ihw =>
    intro s
    rw [List.foldl_cons]
    set F := fun (s1 : BuildState) (p : Nat × Nat) =>
      let earliest_transfer_time := nodeTime s1 p.2 + dur
      match toTr.find? (fun q => decide (earliest_transfer_time ≤ q.1)) with
      | some q => addEdge s1 p.2 q.2 (.WalkToStation dur)
      | none => s1 with hF
    have hFnodes : (F s p).graph.nodes = s.graph.nodes := by
      rw [hF]
      dsimp only
      split <;> rfl
    have hFstations : (F s p).stations = s.stations := by
      rw [hF]
      dsimp only
      split <;> rfl
    have hFsd : (F s p).stations_departures = s.stations_departures := by
      rw [hF]
      dsimp only
      split <;> rfl
    obtain ⟨i1, i2, i3, i4, i5⟩ := ihw (F s p)
    have hnt : ∀ x, nodeTime (F s p) x = nodeTime s x := by
      intro x
      unfold nodeTime
      rw [hFnodes]
    have hcongr : rest.filterMap (fun p' =>
        (toTr.find? fun q => decide (nodeTime (F s p) p'.2 + dur ≤ q.1)).map
          fun q => Edge.mk p'.2 q.2 (.WalkToStation dur))
        = rest.filterMap fun p' =>
          (toTr.find? fun q => decide (nodeTime s p'.2 + dur ≤ q.1)).map
            fun q => Edge.mk p'.2 q.2 (.WalkToStation dur) :=
      List.filterMap_congr fun p' _ => by rw [hnt]
    refine ⟨by rw [i1, hFnodes], by rw [i2, hFstations], by rw [i3, hFsd], ?_, ?_⟩
    · rw [i4, hcongr, List.filterMap_cons]
      cases hq : toTr.find? (fun q => decide (nodeTime s p.2 + dur ≤ q.1)) with
      | some q =>
        have hFe : (F s p).graph.edges
            = s.graph.edges ++ [⟨p.2, q.2, .WalkToStation dur⟩] := by
          rw [hF]
          dsimp only
          rw [hq]
          rfl
        rw [hFe, List.filter_append]
        simp [EdgeWeight.is_walk_to_station, List.append_assoc]
      | none =>
        have hFe : (F s p).graph.edges = s.graph.edges := by
          rw [hF]
          dsimp only
          rw [hq]
        rw [hFe]
        simp
    · intro pw hpw
      rw [i5 pw hpw]
      cases hq : toTr.find? (fun q => decide (nodeTime s p.2 + dur ≤ q.1)) with
      | some q =>
        have hFe : (F s p).graph.edges
            = s.graph.edges ++ [⟨p.2, q.2, .WalkToStation dur⟩] := by
          rw [hF]
          dsimp only
          rw [hq]
          rfl
        rw [hFe]
        exact filter_append_none _ _ _ (by
          intro e he
          simp only [List.mem_singleton] at he
          subst he
          simpa using hpw dur)
      | none =>
        have hFe : (F s p).graph.edges = s.graph.edges := by
          rw [hF]
          dsimp only
          rw [hq]
        rw [hFe]

theorem addFootpath_spec (s : BuildState) (fp : Footpath) :
    (addFootpath s fp).graph.nodes = s.graph.nodes ∧
    (addFootpath s fp).stations = s.stations ∧
    (addFootpath s fp).stations_departures = s.stations_departures ∧
    (addFootpath s fp).graph.edges.filter (fun e => e.weight.is_walk_to_station)
      = s.graph.edges.filter (fun e => e.weight.is_walk_to_station) ++ wBlock s fp ∧
    (∀ pw : EdgeWeight → Bool, (∀ u, pw (.WalkToStation u) = false) →
      (addFootpath s fp).graph.edges.filter (fun e => pw e.weight)
        = s.graph.edges.filter fun e => pw e.weight) := by
  unfold addFootpath wBlock
  rcases h1 : getStation s fp.from_station with _ | fromSt <;>
    rcases h2 : getStation s fp.to_station with _ | toSt
  · exact ⟨rfl, rfl, rfl, by simp, fun _ _ => rfl⟩
  · exact ⟨rfl, rfl, rfl, by simp, fun _ _ => rfl⟩
  · exact ⟨rfl, rfl, rfl, by simp, fun _ _ => rfl⟩
  · exact walkFoldAux toSt.transfer_node_indices fp.duration
      fromSt.arrival_node_indices s

theorem wBlock_graph_eq (s s' : BuildState) (fp : Footpath)
    (hst : s'.stations = s.stations) (hn : s'.graph.nodes = s.graph.nodes) :
    wBlock s' fp = wBlock s fp := by
  unfold wBlock
  rw [getStation_eq_of_stations s s' hst fp.from_station,
    getStation_eq_of_stations s s' hst fp.to_station]
  rcases getStation s fp.from_station with _ | fromSt <;>
    rcases getStation s fp.to_station with _ | toSt
  · rfl
  · rfl
  · rfl
  · apply List.filterMap_congr
    intro p _
    have hx : nodeTime s' p.2 = nodeTime s p.2 := by
      unfold nodeTime
      rw [hn]
    rw [hx]

theorem phase3_spec : ∀ (fps : List Footpath) (s : BuildState),
    (fps.foldl addFootpath s).graph.nodes = s.graph.nodes ∧
    (fps.foldl addFootpath s).stations = s.stations ∧
    (fps.foldl addFootpath s).stations_departures = s.stations_departures ∧
    (fps.foldl addFootpath s).graph.edges.filter (fun e => e.weight.is_walk_to_station)
      = s.graph.edges.filter (fun e => e.weight.is_walk_to_station)
        ++ (fps.map fun fp => wBlock s fp).flatten ∧
    (∀ pw : EdgeWeight → Bool, (∀ u, pw (.WalkToStation u) = false) →
      (fps.foldl addFootpath s).graph.edges.filter (fun e => pw e.weight)
        = s.graph.edges.filter fun e => pw e.weight) := by
  intro fps
  induction fps with
  | nil => intro s; exact ⟨rfl, rfl, rfl, by simp, fun _ _ => rfl⟩
  | cons fp rest ihf =>
    intro s
    rw [List.foldl_cons]
    obtain ⟨a1, a2, a3, a4, a5⟩ := addFootpath_spec s fp
    obtain ⟨i1, i2, i3, i4, i5⟩ := ihf (addFootpath s fp)
    have hcongr : rest.map (fun fp' => wBlock (addFootpath s fp) fp')
        = rest.map fun fp' => wBlock s fp' :=
      List.map_congr_left fun fp' _ => wBlock_graph_eq s (addFootpath s fp) fp' a2 a1
    refine ⟨by rw [i1, a1], by rw [i2, a2], by rw [i3, a3], ?_, ?_⟩
    · rw [i4, hcongr, a4, List.map_cons, List.flatten_cons, List.append_assoc]
    · intro pw hpw
      rw [i5 pw hpw, a5 pw hpw]

/-! ### Builder: assembled characterization of the built model -/

theorem buildModel_spec (sts : List Station) (trips : List Trip) (fps : List Footpath)
    (H1 : (sts.map Station.id).Nodup)
    (H3 : ∀ t ∈ trips, t.to_station ∈ sts.map Station.id) :
    Inv (buildModel sts trips fps) ∧
    SdInv (buildModel sts trips fps) ∧
    ((buildModel sts trips fps).graph.edges.filter (fun e => e.weight.is_stay_at_station)
      = ((buildModel sts trips fps).stations_departures.map
          fun p => chainStayEdges p.2).flatten) ∧
    ((buildModel sts trips fps).graph.edges.filter (fun e => e.weight.is_alight)
      = ((buildModel sts trips fps).stations_departures.map
          fun p => aBlock (buildModel sts trips fps) p.1 p.2).flatten) ∧
    ((buildModel sts trips fps).graph.edges.filter (fun e => e.weight.is_walk_to_station)
      = (fps.map fun fp => wBlock (buildModel sts trips fps) fp).flatten) ∧
    (∀ id ∈ sts.map Station.id, ∃ trv,
      (id, trv) ∈ (buildModel sts trips fps).stations_departures) ∧
    (∀ id, id ∉ sts.map Station.id → getStation (buildModel sts trips fps) id = none) := by
  unfold buildModel
  dsimp only
  set s0 : BuildState :=
    { graph := { nodes := [], edges := [] },
      stations := sts.map fun st =>
        { id := st.id, transfer_time := st.transfer_time,
          arrival_node_indices := [], departure_node_indices := [],
          transfer_node_indices := [] },
      stations_departures := [],
      station_arrival_main_node_indices := [] } with hs0
  have hids0 : s0.stations.map (fun st => st.id) = sts.map Station.id := by
    rw [hs0]
    dsimp only
    rw [List.map_map]
    rfl
  have hinv0 : Inv s0 := by
    constructor
    · rw [hids0]; exact H1
    · intro st hst p hp
      rw [hs0] at hst
      obtain ⟨st', _, hdef⟩ := List.mem_map.mp hst
      subst hdef
      simp at hp
    · intro st hst p hp
      rw [hs0] at hst
      obtain ⟨st', _, hdef⟩ := List.mem_map.mp hst
      subst hdef
      simp at hp
    · intro st hst
      rw [hs0] at hst
      obtain ⟨st', _, hdef⟩ := List.mem_map.mp hst
      subst hdef
      simp
    · intro st hst
      rw [hs0] at hst
      obtain ⟨st', _, hdef⟩ := List.mem_map.mp hst
      subst hdef
      simp
    · intro i tid time stId hlook
      rw [hs0] at hlook
      simp at hlook
  have hg0 : ∀ id, id ∈ sts.map Station.id →
      ∃ st, getStation s0 id = some st ∧ st.transfer_node_indices = [] := by
    intro id hid
    have : ∃ st ∈ s0.stations, st.id = id := by
      rw [← hids0] at hid
      obtain ⟨st, hst, hdef⟩ := List.mem_map.mp hid
      exact ⟨st, hst, hdef⟩
    obtain ⟨st, hst, hdef⟩ := this
    have hfind : (s0.stations.find? fun st => st.id == id).isSome := by
      rw [List.find?_isSome]
      exact ⟨st, hst, by simp [hdef]⟩
    obtain ⟨stf, hstf⟩ := Option.isSome_iff_exists.mp hfind
    refine ⟨stf, hstf, ?_⟩
    have hmem := List.mem_of_find?_eq_some hstf
    rw [hs0] at hmem
    obtain ⟨st', _, hdef'⟩ := List.mem_map.mp hmem
    rw [← hdef']
  have hg0none : ∀ id, id ∉ sts.map Station.id → getStation s0 id = none := by
    intro id hid
    apply List.find?_eq_none.mpr
    intro st hst
    rw [hs0] at hst
    obtain ⟨st', hst', hdef⟩ := List.mem_map.mp hst
    simp only [beq_iff_eq]
    intro heq
    apply hid
    rw [← heq, ← hdef]
    exact List.mem_map.mpr ⟨st', hst', rfl⟩
  -- phase 1
  obtain ⟨hinv1, hext1, hsd1, hproj1, hfilters1⟩ := phase1_spec trips s0 hinv0
    (by intro t ht; rw [hids0]; exact H3 t ht)
  set s1 := trips.foldl addTrip s0 with hs1
  have hpend1 : Pending s1 (sts.map Station.id) := by
    refine ⟨H1, ?_, ?_⟩
    · intro id hid
      obtain ⟨st, hst, htr⟩ := hg0 id hid
      have := getStation_proj13 s0 s1 hproj1 id
      rw [hst] at this
      rcases hg : getStation s1 id with _ | st'
      · rw [hg] at this; simp at this
      · rw [hg] at this
        simp only [Option.map, Option.bind] at this
        have h3 := congrArg (fun x => x.2.2) (Option.some.inj this)
        refine ⟨st', rfl, ?_⟩
        simpa [htr] using h3
    · intro p hp
      rw [hsd1] at hp
      simp [hs0] at hp
  have hsdinv1 : SdInv s1 := by
    refine ⟨?_, ?_, ?_⟩ <;> rw [hsd1] <;> simp [hs0]
  have hstay1 : s1.graph.edges.filter (fun e => e.weight.is_stay_at_station)
      = (s1.stations_departures.map fun p => chainStayEdges p.2).flatten := by
    rw [hfilters1 (fun w => w.is_stay_at_station) (fun _ _ _ => rfl), hsd1]
    rw [hs0]
    rfl
  have halight1 : s1.graph.edges.filter (fun e => e.weight.is_alight)
      = (s1.stations_departures.map fun p => aBlock s1 p.1 p.2).flatten := by
    rw [hfilters1 (fun w => w.is_alight) (fun _ _ _ => rfl), hsd1]
    rw [hs0]
    rfl
  -- phase 2
  obtain ⟨hinv2, hsdinv2, hext2, hstay2, halight2, hwalk2, hcover2, hkeep2, hget2⟩ :=
    phase2_spec (sts.map Station.id) s1 hinv1 hsdinv1 hpend1 hstay1 halight1
  set s2 := (sts.map Station.id).foldl processStation s1 with hs2
  -- phase 3
  obtain ⟨p1, p2, p3, p4, p5⟩ := phase3_spec fps s2
  set s3 := fps.foldl addFootpath s2 with hs3
  have hinv3 : Inv s3 := inv_of_same s2 s3 p1 p2 hinv2
  have hgets : ∀ id, getStation s3 id = getStation s2 id := fun id =>
    getStation_eq_of_stations s2 s3 p2 id
  refine ⟨hinv3, ?_, ?_, ?_, ?_, ?_, ?_⟩
  · obtain ⟨sdND, sdSorted, sdMirror⟩ := hsdinv2
    refine ⟨by rw [p3]; exact sdND, ?_, ?_⟩
    · intro p hp
      rw [p3] at hp
      exact sdSorted p hp
    · intro p hp
      rw [p3] at hp
      obtain ⟨st, hgst, htr⟩ := sdMirror p hp
      exact ⟨st, by rw [hgets]; exact hgst, htr⟩
  · rw [p5 (fun w => w.is_stay_at_station) (fun _ => rfl), hstay2, p3]
  · rw [p5 (fun w => w.is_alight) (fun _ => rfl), halight2, p3]
    apply congrArg
    apply List.map_congr_left
    intro p hp
    exact (aBlock_graph_eq s2 s3 p.1 p.2 (hgets p.1) p1).symm
  · rw [p4]
    have hw : s2.graph.edges.filter (fun e => e.weight.is_walk_to_station) = [] := by
      rw [hwalk2, hfilters1 (fun w => w.is_walk_to_station) (fun _ _ _ => rfl)]
      rw [hs0]
      rfl
    rw [hw, List.nil_append]
    apply congrArg
    apply List.map_congr_left
    intro fp _
    exact (wBlock_graph_eq s2 s3 fp p2 p1).symm
  · intro id hid
    obtain ⟨trv, htrv⟩ := hcover2 id hid
    exact ⟨trv, by rw [p3]; exact htrv⟩
  · intro id hid
    rw [hgets, hget2 id hid]
    have hg1 : getStation s1 id = getStation s0 id := by
      rcases hg : getStation s0 id with _ | st
      · have := getStation_proj13 s0 s1 hproj1 id
        rw [hg] at this
        rcases hg' : getStation s1 id with _ | st'
        · rfl
        · rw [hg'] at this; simp at this
      · exfalso
        have hmem := getStation_mem s0 id st hg
        have : id ∈ sts.map Station.id := by
          rw [← hids0]
          rw [← hmem.2]
          exact List.mem_map.mpr ⟨st, hmem.1, rfl⟩
        exact hid this
    rw [hg1]
    exact hg0none id hid

/-! Pure lemmas about the statement helpers, used to settle the
uniqueness claims C2 and C3 over the built model. -/

theorem chainStay_src_mem : ∀ (l : List (Nat × Nat)) (e : Edge), e ∈ chainStayEdges l →
    e.src ∈ l.map Prod.snd := by
  intro l
  induction l with
  | nil => intro e he; simp [chainStayEdges] at he
  | cons a tail ih =>
    intro e he
    cases tail with
    | nil => simp [chainStayEdges] at he
    | cons b rest =>
      rw [chainStayEdges] at he
      rcases List.mem_cons.mp he with h | h
      · subst h; simp
      · exact List.mem_cons_of_mem _ (ih e h)

theorem chainStay_filter_nil (l : List (Nat × Nat)) (av : Nat) (pd : Edge → Bool)
    (h : av ∉ l.map Prod.snd) :
    (chainStayEdges l).filter (fun e => e.src == av && pd e) = [] := by
  rw [List.filter_eq_nil_iff]
  intro e he
  have hs := chainStay_src_mem l e he
  have hne : e.src ≠ av := fun heq => h (heq ▸ hs)
  simp [hne]

theorem chainStay_filter_pair : ∀ (l1 : List (Nat × Nat)) (a b : Nat × Nat)
    (l2 : List (Nat × Nat)),
    (((l1 ++ a :: b :: l2).map Prod.snd).Nodup) →
    (chainStayEdges (l1 ++ a :: b :: l2)).filter
        (fun e => e.src == a.2 && e.dst == b.2)
      = [⟨a.2, b.2, .StayAtStation (b.1 - a.1)⟩] := by
  intro l1
  induction l1 with
  | nil =>
    intro a b l2 hnd
    have hna : a.2 ∉ (b :: l2).map Prod.snd := by
      have hrw : ((([] : List (Nat × Nat)) ++ a :: b :: l2).map Prod.snd)
          = a.2 :: (b :: l2).map Prod.snd := rfl
      rw [hrw] at hnd
      exact (List.nodup_cons.mp hnd).1
    have h1 : (chainStayEdges (b :: l2)).filter
        (fun e => e.src == a.2 && e.dst == b.2) = [] :=
      chainStay_filter_nil (b :: l2) a.2 _ hna
    rw [List.nil_append, chainStayEdges, List.filter_cons_of_pos (by simp), h1]
  | cons c l1' ih =>
    intro a b l2 hnd
    rcases hrest : l1' ++ a :: b :: l2 with _ | ⟨d, rest'⟩
    · exact absurd hrest (by simp)
    · have hndc : c.2 ∉ (l1' ++ a :: b :: l2).map Prod.snd ∧
          ((l1' ++ a :: b :: l2).map Prod.snd).Nodup := by
        have hrw : (((c :: l1') ++ a :: b :: l2).map Prod.snd)
            = c.2 :: (l1' ++ a :: b :: l2).map Prod.snd := rfl
        rw [hrw] at hnd
        exact List.nodup_cons.mp hnd
      have hc : c.2 ≠ a.2 := by
        intro h
        apply hndc.1
        rw [h]
        exact List.mem_map.mpr ⟨a, by simp, rfl⟩
      rw [List.cons_append, hrest, chainStayEdges,
        List.filter_cons_of_neg (by simp [hc]), ← hrest]
      exact ih a b l2 hndc.2

theorem find?_min_of_sorted (p : Nat × Nat → Bool) :
    ∀ (tr : List (Nat × Nat)), List.Sorted keyLe tr →
    ∀ q, tr.find? p = some q →
    ∀ r ∈ tr, p r = true → q.1 ≤ r.1 := by
  intro tr
  induction tr with
  | nil => intro _ q hq; simp at hq
  | cons x rest ih =>
    intro hs q hq r hr hpr
    rw [List.sorted_cons] at hs
    by_cases hpx : p x = true
    · rw [List.find?_cons_of_pos _ hpx] at hq
      injection hq with h
      subst h
      rcases List.mem_cons.mp hr with h | h
      · subst h; exact le_refl _
      · exact hs.1 r h
    · rw [List.find?_cons_of_neg _ (by simpa using hpx)] at hq
      rcases List.mem_cons.mp hr with h | h
      · subst h; exact absurd hpr hpx
      · exact ih hs.2 q hq r h hpr

theorem filterMap_pe_nil (g : Nat × Nat → Option Edge) (pe : Edge → Bool)
    (l : List (Nat × Nat))
    (h : ∀ p ∈ l, ∀ e, g p = some e → pe e = false) :
    (l.filterMap g).filter pe = [] := by
  rw [List.filter_eq_nil_iff]
  intro e he
  obtain ⟨p, hp, hg⟩ := List.mem_filterMap.mp he
  simp [h p hp e hg]

theorem filterMap_key_unique (g : Nat × Nat → Option Edge) (pe : Edge → Bool)
    (av : Nat) :
    ∀ (l : List (Nat × Nat)),
    (∀ p ∈ l, ∀ e, g p = some e → pe e = (p.2 == av)) →
    ((l.map Prod.snd).Nodup) →
    (l.filterMap g).filter pe
      = ((l.find? fun p => p.2 == av).bind g).toList := by
  intro l
  induction l with
  | nil => intro _ _; rfl
  | cons p rest ih =>
    intro hpe hnd
    have hnd' : p.2 ∉ rest.map Prod.snd ∧ (rest.map Prod.snd).Nodup := by
      have hrw : ((p :: rest).map Prod.snd) = p.2 :: rest.map Prod.snd := rfl
      rw [hrw] at hnd
      exact List.nodup_cons.mp hnd
    by_cases hp2 : (p.2 == av) = true
    · rw [@List.find?_cons_of_pos _ (fun q => q.2 == av) p rest hp2]
      have htail : (rest.filterMap g).filter pe = [] := by
        apply filterMap_pe_nil
        intro p' hp' e hge
        rw [hpe p' (List.mem_cons_of_mem _ hp') e hge]
        have : p'.2 ≠ av := by
          intro h
          apply hnd'.1
          rw [beq_iff_eq.mp hp2, ← h]
          exact List.mem_map.mpr ⟨p', hp', rfl⟩
        simp [this]
      rcases hg : g p with _ | e
      · rw [List.filterMap_cons_none hg, htail]
        simp [hg]
      · rw [List.filterMap_cons_some hg,
          List.filter_cons_of_pos (by rw [hpe p (List.mem_cons_self p rest) e hg]; exact hp2),
          htail]
        simp [hg]
    · rw [@List.find?_cons_of_neg _ (fun q => q.2 == av) p rest (by simpa using hp2)]
      have hreste : ∀ p' ∈ rest, ∀ e, g p' = some e → pe e = (p'.2 == av) :=
        fun p' hp' e hge => hpe p' (List.mem_cons_of_mem _ hp') e hge
      rcases hg : g p with _ | e
      · rw [List.filterMap_cons_none hg]
        exact ih hreste hnd'.2
      · rw [List.filterMap_cons_some hg,
          List.filter_cons_of_neg (by rw [hpe p (List.mem_cons_self p rest) e hg]; simpa using hp2)]
        exact ih hreste hnd'.2

theorem getStation_of_mem (s : BuildState)
    (hnd : (s.stations.map fun st => st.id).Nodup)
    (st : StationState) (hst : st ∈ s.stations) :
    getStation s st.id = some st := by
  have hsome : (s.stations.find? fun x => x.id == st.id).isSome := by
    rw [List.find?_isSome]
    exact ⟨st, hst, by simp⟩
  obtain ⟨x, hx⟩ := Option.isSome_iff_exists.mp hsome
  have hxm := List.mem_of_find?_eq_some hx
  have hxid : x.id = st.id := by simpa using List.find?_some hx
  have hxst : x = st := List.inj_on_of_nodup_map hnd hxm hst hxid
  rw [getStation, hx, hxst]

theorem find?_snd_of_mem (l : List (Nat × Nat)) (tid av : Nat)
    (h : (tid, av) ∈ l) :
    ∃ p0, (l.find? fun p => p.2 == av) = some p0 ∧ p0.2 = av := by
  have hsome : (l.find? fun p => p.2 == av).isSome := by
    rw [List.find?_isSome]
    exact ⟨(tid, av), h, by simp⟩
  obtain ⟨p0, hp0⟩ := Option.isSome_iff_exists.mp hsome
  exact ⟨p0, hp0, by simpa using List.find?_some hp0⟩

theorem nodeTime_of_lookup (s : BuildState) (i : Nat) (w : NodeWeight) (t : Nat)
    (h : s.graph.nodes[i]? = some w) (ht : w.get_time = some t) :
    nodeTime s i = t := by
  rw [nodeTime, List.getD_eq_getElem?_getD, h]
  simp [ht]

theorem aBlock_filter_ne (M : BuildState) (hinv : Inv M) (otherId : String)
    (tr : List (Nat × Nat)) (av tid t : Nat) (stId : String)
    (hnode : M.graph.nodes[av]? = some (.Arrival tid t stId))
    (hne : otherId ≠ stId) :
    (aBlock M otherId tr).filter (fun e => e.src == av) = [] := by
  unfold aBlock
  rcases hg : getStation M otherId with _ | stp
  · rfl
  · apply filterMap_pe_nil
    intro p' hp' e hge
    have hmem := getStation_mem M otherId stp hg
    obtain ⟨time', harr⟩ := hinv.arrOK stp hmem.1 p' hp'
    have hesrc : e.src = p'.2 := by
      rcases hf : tr.find?
          (fun q => decide (nodeTime M p'.2 + stp.transfer_time ≤ q.1)) with _ | q
      · rw [hf] at hge; simp at hge
      · rw [hf] at hge
        simp only [Option.map] at hge
        have := Option.some.inj hge
        rw [← this]
    have hpa : p'.2 ≠ av := by
      intro hEq
      rw [hEq, hnode] at harr
      have h3 := Option.some.inj harr
      injection h3 with h31 h32 h33
      exact hne (h33.trans hmem.2).symm
    rw [hesrc]
    simp [hpa]

theorem wBlock_filter_ne (M : BuildState) (hinv : Inv M) (fp' : Footpath)
    (av tid t : Nat) (stId toId : String)
    (hnode : M.graph.nodes[av]? = some (.Arrival tid t stId))
    (hne : fp'.from_station ≠ stId ∨ fp'.to_station ≠ toId) :
    (wBlock M fp').filter (fun e => e.src == av && isTransferAt M toId e.dst) = [] := by
  unfold wBlock
  rcases hg1 : getStation M fp'.from_station with _ | fromSt
  · rfl
  rcases hg2 : getStation M fp'.to_station with _ | toSt
  · rfl
  apply filterMap_pe_nil
  intro p' hp' e hge
  have hm1 := getStation_mem M fp'.from_station fromSt hg1
  have hm2 := getStation_mem M fp'.to_station toSt hg2
  rcases hf : toSt.transfer_node_indices.find?
      (fun q => decide (nodeTime M p'.2 + fp'.duration ≤ q.1)) with _ | q
  · rw [hf] at hge; simp at hge
  · rw [hf] at hge
    simp only [Option.map] at hge
    have he := Option.some.inj hge
    rcases hne with hne | hne
    · obtain ⟨time', harr⟩ := hinv.arrOK fromSt hm1.1 p' hp'
      have hpa : p'.2 ≠ av := by
        intro hEq
        rw [hEq, hnode] at harr
        have h3 := Option.some.inj harr
        injection h3 with h31 h32 h33
        exact hne (h33.trans hm1.2).symm
      rw [← he]
      simp [hpa]
    · have htrq := hinv.trOK toSt hm2.1 q (List.mem_of_find?_eq_some hf)
      have hneq : toSt.id ≠ toId := fun h => hne (hm2.2.symm.trans h)
      have hdst : isTransferAt M toId q.2 = false := by
        unfold isTransferAt
        rw [htrq]
        simp [hneq]
      rw [← he]
      simp [hdst]

theorem built_arrival_station (M : BuildState) (hinv : Inv M)
    (av tid t : Nat) (stId : String)
    (hnode : M.graph.nodes[av]? = some (.Arrival tid t stId)) :
    ∃ st, getStation M stId = some st ∧ (tid, av) ∈ st.arrival_node_indices := by
  obtain ⟨st, hstm, hid, hmem⟩ := hinv.arrComplete av tid t stId hnode
  refine ⟨st, ?_, hmem⟩
  have := getStation_of_mem M hinv.idsND st hstm
  rwa [hid] at this

theorem sd_entry_of_getStation (M : BuildState) (ids : List String)
    (hnone : ∀ id, id ∉ ids → getStation M id = none)
    (hcover : ∀ id ∈ ids, ∃ trv, (id, trv) ∈ M.stations_departures)
    (hmirror : ∀ p ∈ M.stations_departures,
      ∃ st, getStation M p.1 = some st ∧ st.transfer_node_indices = p.2)
    (id : String) (st : StationState) (hg : getStation M id = some st) :
    (id, st.transfer_node_indices) ∈ M.stations_departures := by
  have hid : id ∈ ids := by
    by_contra h
    rw [hnone id h] at hg
    exact Option.noConfusion hg
  obtain ⟨trv, htrv⟩ := hcover id hid
  obtain ⟨st2, hg2, htr2⟩ := hmirror (id, trv) htrv
  have hst : st2 = st := Option.some.inj (hg2.symm.trans hg)
  subst hst
  rw [htr2]
  exact htrv

/-- C3 (amended): after the builder finishes, every station's transfer
chain recorded in `stations_departures` is sorted by time — weakly, not
strictly: `sort_unstable_by_key` does not deduplicate equal departure
times (see the counterexample) — and every adjacent pair of the chain is
linked by exactly one StayAtStation edge whose duration is the later
time minus the earlier time. -/
theorem C3_transfer_chains_sorted_with_stay_edges
    (sts : List Station) (trips : List Trip) (fps : List Footpath)
    (H1 : (sts.map Station.id).Nodup)
    (H3 : ∀ t ∈ trips, t.to_station ∈ sts.map Station.id)
    (stId : String) (tr : List (Nat × Nat))
    (hmem : (stId, tr) ∈ (buildModel sts trips fps).stations_departures) :
    List.Sorted keyLe tr ∧
    ∀ l1 a b l2, tr = l1 ++ a :: b :: l2 →
      stayEdgesBetween (buildModel sts trips fps) a.2 b.2
        = [⟨a.2, b.2, .StayAtStation (b.1 - a.1)⟩] := by
  obtain ⟨hinv, hsd, hstay, halight, hwalk, hcover, hnone⟩ :=
    buildModel_spec sts trips fps H1 H3
  set M := buildModel sts trips fps with hM
  refine ⟨hsd.2.1 (stId, tr) hmem, ?_⟩
  intro l1 a b l2 htr
  obtain ⟨st, hgst, htrst0⟩ := hsd.2.2 (stId, tr) hmem
  have htrst : st.transfer_node_indices = tr := htrst0
  have hstm := getStation_mem M stId st hgst
  have hndtr : (tr.map Prod.snd).Nodup := by
    rw [← htrst]
    exact hinv.trND st hstm.1
  have hamem : a ∈ tr := by
    rw [htr]
    exact List.mem_append_right _ (List.mem_cons_self _ _)
  have hatr : M.graph.nodes[a.2]? = some (.Transfer a.1 st.id) := by
    apply hinv.trOK st hstm.1
    rw [htrst]
    exact hamem
  obtain ⟨sdl, sdr, hsd_eq⟩ := List.append_of_mem hmem
  have hkeyND := hsd.1
  rw [hsd_eq] at hkeyND
  simp only [List.map_append, List.map_cons] at hkeyND
  rw [List.nodup_append] at hkeyND
  have hsidel : ∀ p ∈ sdl, p.1 ≠ stId := by
    intro p hp hEq
    exact hkeyND.2.2 (List.mem_map.mpr ⟨p, hp, hEq⟩) (List.mem_cons_self _ _)
  have hsider : ∀ p ∈ sdr, p.1 ≠ stId := by
    intro p hp hEq
    exact (List.nodup_cons.mp hkeyND.2.1).1 (List.mem_map.mpr ⟨p, hp, hEq⟩)
  have hsideNil : ∀ p, p ∈ sdl ∨ p ∈ sdr →
      (chainStayEdges p.2).filter (fun e => e.src == a.2 && e.dst == b.2) = [] := by
    intro p hp
    apply chainStay_filter_nil
    intro hmem2
    obtain ⟨q, hq, hq2⟩ := List.mem_map.mp hmem2
    have hpmem : p ∈ M.stations_departures := by
      rw [hsd_eq]
      rcases hp with hp | hp
      · exact List.mem_append_left _ hp
      · exact List.mem_append_right _ (List.mem_cons_of_mem _ hp)
    obtain ⟨stp, hgp, htrp⟩ := hsd.2.2 p hpmem
    have hstpm := getStation_mem M p.1 stp hgp
    have hqtr : M.graph.nodes[q.2]? = some (.Transfer q.1 stp.id) := by
      apply hinv.trOK stp hstpm.1
      rw [show stp.transfer_node_indices = p.2 from htrp]
      exact hq
    rw [hq2, hatr] at hqtr
    have h3 := Option.some.inj hqtr
    injection h3 with h31 h32
    have hp1 : p.1 = stId := hstpm.2.symm.trans (h32.symm.trans hstm.2)
    rcases hp with hp | hp
    · exact hsidel p hp hp1
    · exact hsider p hp hp1
  have hmid : (chainStayEdges tr).filter (fun e => e.src == a.2 && e.dst == b.2)
      = [⟨a.2, b.2, .StayAtStation (b.1 - a.1)⟩] := by
    rw [htr] at hndtr
    rw [htr]
    exact chainStay_filter_pair l1 a b l2 hndtr
  have hflatl : ((sdl.map fun p => chainStayEdges p.2).flatten).filter
      (fun e => e.src == a.2 && e.dst == b.2) = [] := by
    rw [List.filter_eq_nil_iff]
    intro e he
    obtain ⟨l, hl, hel⟩ := List.mem_flatten.mp he
    obtain ⟨p, hp, hfp⟩ := List.mem_map.mp hl
    have hnil := hsideNil p (Or.inl hp)
    rw [List.filter_eq_nil_iff] at hnil
    exact hnil e (hfp ▸ hel)
  have hflatr : ((sdr.map fun p => chainStayEdges p.2).flatten).filter
      (fun e => e.src == a.2 && e.dst == b.2) = [] := by
    rw [List.filter_eq_nil_iff]
    intro e he
    obtain ⟨l, hl, hel⟩ := List.mem_flatten.mp he
    obtain ⟨p, hp, hfp⟩ := List.mem_map.mp hl
    have hnil := hsideNil p (Or.inr hp)
    rw [List.filter_eq_nil_iff] at hnil
    exact hnil e (hfp ▸ hel)
  unfold stayEdgesBetween
  rw [hstay, hsd_eq]
  simp only [List.map_append, List.map_cons, List.flatten_append, List.flatten_cons,
    List.filter_append]
  rw [hflatl, hflatr, hmid]
  simp

/-- C3 counterexample: two trips departing the same station at the same
time give that station a transfer chain with two equal times, so the
chain is not strictly ascending as the original claim requires. -/
theorem C3_counterexample_equal_times :
    ("A", [((5:Nat),(5:Nat)), (5,6)]) ∈ tieModel.stations_departures ∧
    ¬ List.Sorted (fun a b : Nat × Nat => a.1 < b.1) [((5:Nat),(5:Nat)), (5,6)] := by
  refine ⟨by decide, ?_⟩
  intro h
  rw [List.sorted_cons] at h
  exact absurd (h.1 (5, 6) (by decide)) (by decide)

/-- C3 witness: the amended statement instantiated on the worked example,
station A, whose chain is [(0,9),(5,10)]. -/
theorem C3_witness :
    (exStations.map Station.id).Nodup ∧
    (∀ t ∈ exTrips, t.to_station ∈ exStations.map Station.id) ∧
    ("A", [((0:Nat),(9:Nat)), (5,10)])
      ∈ (buildModel exStations exTrips exFootpaths).stations_departures ∧
    (List.Sorted keyLe [((0:Nat),(9:Nat)), (5,10)] ∧
     ∀ l1 a b l2, ([((0:Nat),(9:Nat)), (5,10)] : List (Nat × Nat)) = l1 ++ a :: b :: l2 →
       stayEdgesBetween (buildModel exStations exTrips exFootpaths) a.2 b.2
         = [⟨a.2, b.2, .StayAtStation (b.1 - a.1)⟩]) :=
  ⟨by decide, by decide, by decide,
   C3_transfer_chains_sorted_with_stay_edges exStations exTrips exFootpaths
     (by decide) (by decide) "A" [(0,9),(5,10)] (by decide)⟩

/-- C2 (amended): after the builder finishes, every Arrival node has at
most one Alight edge into its own station's transfer chain and — when
the footpath (from, to) pairs are pairwise distinct, which the original
unconditional claim omits and which fails for a duplicated footpath
(see the counterexample) — for each footpath out of its station at most
one Walk edge into the successor station's transfer chain: the edge
exists exactly when an eligible Transfer exists (find? returns some),
it targets the earliest Transfer whose time is at least the arrival
time plus the transfer/footpath duration, its duration is that
transfer/footpath duration, and when no Transfer is eligible no such
edge exists. -/
theorem C2_alight_walk_unique_earliest
    (sts : List Station) (trips : List Trip) (fps : List Footpath)
    (H1 : (sts.map Station.id).Nodup)
    (H3 : ∀ t ∈ trips, t.to_station ∈ sts.map Station.id)
    (H4 : (fps.map fun fp => (fp.from_station, fp.to_station)).Nodup)
    (av tid t : Nat) (stId : String)
    (hnode : (buildModel sts trips fps).graph.nodes[av]?
      = some (.Arrival tid t stId)) :
    (∀ st, getStation (buildModel sts trips fps) stId = some st →
      ((st.transfer_node_indices.find? fun q =>
          decide (t + st.transfer_time ≤ q.1)) = none →
        alightEdgesFrom (buildModel sts trips fps) av = []) ∧
      (∀ q, (st.transfer_node_indices.find? fun q =>
          decide (t + st.transfer_time ≤ q.1)) = some q →
        alightEdgesFrom (buildModel sts trips fps) av
          = [⟨av, q.2, .Alight st.transfer_time⟩] ∧
        (buildModel sts trips fps).graph.nodes[q.2]? = some (.Transfer q.1 stId) ∧
        t + st.transfer_time ≤ q.1 ∧
        ∀ r ∈ st.transfer_node_indices, t + st.transfer_time ≤ r.1 → q.1 ≤ r.1)) ∧
    (∀ fp ∈ fps, fp.from_station = stId →
      ∀ toSt, getStation (buildModel sts trips fps) fp.to_station = some toSt →
      ((toSt.transfer_node_indices.find? fun q =>
          decide (t + fp.duration ≤ q.1)) = none →
        walkEdgesFromTo (buildModel sts trips fps) av fp.to_station = []) ∧
      (∀ q, (toSt.transfer_node_indices.find? fun q =>
          decide (t + fp.duration ≤ q.1)) = some q →
        walkEdgesFromTo (buildModel sts trips fps) av fp.to_station
          = [⟨av, q.2, .WalkToStation fp.duration⟩] ∧
        (buildModel sts trips fps).graph.nodes[q.2]?
          = some (.Transfer q.1 fp.to_station) ∧
        t + fp.duration ≤ q.1 ∧
        ∀ r ∈ toSt.transfer_node_indices, t + fp.duration ≤ r.1 → q.1 ≤ r.1)) := by
  obtain ⟨hinv, hsd, hstay, halight, hwalk, hcover, hnone⟩ :=
    buildModel_spec sts trips fps H1 H3
  set M := buildModel sts trips fps with hM
  have hnt : nodeTime M av = t := nodeTime_of_lookup M av _ t hnode rfl
  obtain ⟨stF, hgF, harrF⟩ := built_arrival_station M hinv av tid t stId hnode
  constructor
  · -- Alight part
    intro st hgst
    have hstFst : stF = st := Option.some.inj (hgF.symm.trans hgst)
    have harrSt : (tid, av) ∈ st.arrival_node_indices := hstFst ▸ harrF
    have hstm := getStation_mem M stId st hgst
    have hsdmem : (stId, st.transfer_node_indices) ∈ M.stations_departures :=
      sd_entry_of_getStation M (sts.map Station.id) hnone hcover hsd.2.2 stId st hgst
    have hsorted : List.Sorted keyLe st.transfer_node_indices :=
      hsd.2.1 (stId, st.transfer_node_indices) hsdmem
    have hchar : alightEdgesFrom M av
        = ((st.arrival_node_indices.find? fun p => p.2 == av).bind
            (fun p => (st.transfer_node_indices.find? fun q =>
                decide (nodeTime M p.2 + st.transfer_time ≤ q.1)).map
              fun q => (⟨p.2, q.2, .Alight st.transfer_time⟩ : Edge))).toList := by
      obtain ⟨sdl, sdr, hsd_eq⟩ := List.append_of_mem hsdmem
      have hkeyND := hsd.1
      rw [hsd_eq] at hkeyND
      simp only [List.map_append, List.map_cons] at hkeyND
      rw [List.nodup_append] at hkeyND
      have hsidel : ∀ p ∈ sdl, p.1 ≠ stId := by
        intro p hp hEq
        exact hkeyND.2.2 (List.mem_map.mpr ⟨p, hp, hEq⟩) (List.mem_cons_self _ _)
      have hsider : ∀ p ∈ sdr, p.1 ≠ stId := by
        intro p hp hEq
        exact (List.nodup_cons.mp hkeyND.2.1).1 (List.mem_map.mpr ⟨p, hp, hEq⟩)
      have hflatl : ((sdl.map fun p => aBlock M p.1 p.2).flatten).filter
          (fun e => e.src == av) = [] := by
        rw [List.filter_eq_nil_iff]
        intro e he
        obtain ⟨l, hl, hel⟩ := List.mem_flatten.mp he
        obtain ⟨p, hp, hfp⟩ := List.mem_map.mp hl
        have hnil := aBlock_filter_ne M hinv p.1 p.2 av tid t stId hnode (hsidel p hp)
        rw [List.filter_eq_nil_iff] at hnil
        exact hnil e (hfp ▸ hel)
      have hflatr : ((sdr.map fun p => aBlock M p.1 p.2).flatten).filter
          (fun e => e.src == av) = [] := by
        rw [List.filter_eq_nil_iff]
        intro e he
        obtain ⟨l, hl, hel⟩ := List.mem_flatten.mp he
        obtain ⟨p, hp, hfp⟩ := List.mem_map.mp hl
        have hnil := aBlock_filter_ne M hinv p.1 p.2 av tid t stId hnode (hsider p hp)
        rw [List.filter_eq_nil_iff] at hnil
        exact hnil e (hfp ▸ hel)
      unfold alightEdgesFrom
      rw [halight, hsd_eq]
      simp only [List.map_append, List.map_cons, List.flatten_append, List.flatten_cons,
        List.filter_append]
      rw [hflatl, hflatr]
      simp only [List.nil_append, List.append_nil]
      unfold aBlock
      rw [hgst]
      apply filterMap_key_unique
      · intro p hp e hge
        rcases hf : st.transfer_node_indices.find?
            (fun qq => decide (nodeTime M p.2 + st.transfer_time ≤ qq.1)) with _ | qq
        · rw [hf] at hge; simp at hge
        · rw [hf] at hge
          simp only [Option.map] at hge
          have he := Option.some.inj hge
          rw [← he]
      · exact hinv.arrND st hstm.1
    obtain ⟨p0, hp0find, hp02⟩ := find?_snd_of_mem st.arrival_node_indices tid av harrSt
    constructor
    · intro hfnone
      rw [hchar, hp0find]
      show ((st.transfer_node_indices.find? fun q =>
          decide (nodeTime M p0.2 + st.transfer_time ≤ q.1)).map
          (fun q => (⟨p0.2, q.2, .Alight st.transfer_time⟩ : Edge))).toList = []
      rw [hp02, hnt, hfnone]
      rfl
    · intro q hfsome
      have h1 : alightEdgesFrom M av = [⟨av, q.2, .Alight st.transfer_time⟩] := by
        rw [hchar, hp0find]
        show ((st.transfer_node_indices.find? fun qq =>
            decide (nodeTime M p0.2 + st.transfer_time ≤ qq.1)).map
            (fun qq => (⟨p0.2, qq.2, .Alight st.transfer_time⟩ : Edge))).toList
          = [⟨av, q.2, .Alight st.transfer_time⟩]
        rw [hp02, hnt, hfsome]
        rfl
      have hqmem : q ∈ st.transfer_node_indices := List.mem_of_find?_eq_some hfsome
      have hqshape : M.graph.nodes[q.2]? = some (.Transfer q.1 stId) := by
        have := hinv.trOK st hstm.1 q hqmem
        rwa [hstm.2] at this
      have hqle : t + st.transfer_time ≤ q.1 := by
        have := List.find?_some hfsome
        exact of_decide_eq_true this
      refine ⟨h1, hqshape, hqle, ?_⟩
      intro r hr hle
      exact find?_min_of_sorted _ st.transfer_node_indices hsorted q hfsome r hr
        (decide_eq_true hle)
  · -- Walk part
    intro fp hfp hfrom toSt hgto
    have hm2 := getStation_mem M fp.to_station toSt hgto
    have hsdmem2 : (fp.to_station, toSt.transfer_node_indices) ∈ M.stations_departures :=
      sd_entry_of_getStation M (sts.map Station.id) hnone hcover hsd.2.2
        fp.to_station toSt hgto
    have hsorted2 : List.Sorted keyLe toSt.transfer_node_indices :=
      hsd.2.1 (fp.to_station, toSt.transfer_node_indices) hsdmem2
    have hndF : (stF.arrival_node_indices.map Prod.snd).Nodup :=
      hinv.arrND stF (getStation_mem M stId stF hgF).1
    have hcharW : walkEdgesFromTo M av fp.to_station
        = ((stF.arrival_node_indices.find? fun p => p.2 == av).bind
            (fun p => (toSt.transfer_node_indices.find? fun q =>
                decide (nodeTime M p.2 + fp.duration ≤ q.1)).map
              fun q => (⟨p.2, q.2, .WalkToStation fp.duration⟩ : Edge))).toList := by
      obtain ⟨f1, f2, hfps_eq⟩ := List.append_of_mem hfp
      have hpair := H4
      rw [hfps_eq] at hpair
      simp only [List.map_append, List.map_cons] at hpair
      rw [List.nodup_append] at hpair
      have hside : ∀ fp', (fp' ∈ f1 ∨ fp' ∈ f2) →
          (wBlock M fp').filter
            (fun e => e.src == av && isTransferAt M fp.to_station e.dst) = [] := by
        intro fp' hp
        have hneq : (fp'.from_station, fp'.to_station)
            ≠ (fp.from_station, fp.to_station) := by
          rcases hp with hp | hp
          · intro hEq
            exact hpair.2.2 (List.mem_map.mpr ⟨fp', hp, hEq⟩) (List.mem_cons_self _ _)
          · intro hEq
            exact (List.nodup_cons.mp hpair.2.1).1 (List.mem_map.mpr ⟨fp', hp, hEq⟩)
        have hor : fp'.from_station ≠ stId ∨ fp'.to_station ≠ fp.to_station := by
          by_cases h1 : fp'.from_station = fp.from_station
          · right
            intro h2
            exact hneq (by rw [h1, h2])
          · left
            rw [hfrom] at h1
            exact h1
        exact wBlock_filter_ne M hinv fp' av tid t stId fp.to_station hnode hor
      have hflatlW : ((f1.map fun fp' => wBlock M fp').flatten).filter
          (fun e => e.src == av && isTransferAt M fp.to_station e.dst) = [] := by
        rw [List.filter_eq_nil_iff]
        intro e he
        obtain ⟨l, hl, hel⟩ := List.mem_flatten.mp he
        obtain ⟨fp', hp, hfp'⟩ := List.mem_map.mp hl
        have hnil := hside fp' (Or.inl hp)
        rw [List.filter_eq_nil_iff] at hnil
        exact hnil e (hfp' ▸ hel)
      have hflatrW : ((f2.map fun fp' => wBlock M fp').flatten).filter
          (fun e => e.src == av && isTransferAt M fp.to_station e.dst) = [] := by
        rw [List.filter_eq_nil_iff]
        intro e he
        obtain ⟨l, hl, hel⟩ := List.mem_flatten.mp he
        obtain ⟨fp', hp, hfp'⟩ := List.mem_map.mp hl
        have hnil := hside fp' (Or.inr hp)
        rw [List.filter_eq_nil_iff] at hnil
        exact hnil e (hfp' ▸ hel)
      unfold walkEdgesFromTo
      rw [hwalk, hfps_eq]
      simp only [List.map_append, List.map_cons, List.flatten_append, List.flatten_cons,
        List.filter_append]
      rw [hflatlW, hflatrW]
      simp only [List.nil_append, List.append_nil]
      unfold wBlock
      rw [hfrom, hgF, hgto]
      apply filterMap_key_unique
      · intro p hp e hge
        rcases hf : toSt.transfer_node_indices.find?
            (fun qq => decide (nodeTime M p.2 + fp.duration ≤ qq.1)) with _ | qq
        · rw [hf] at hge; simp at hge
        · rw [hf] at hge
          simp only [Option.map] at hge
          have he := Option.some.inj hge
          have hqtr := hinv.trOK toSt hm2.1 qq (List.mem_of_find?_eq_some hf)
          have htat : isTransferAt M fp.to_station qq.2 = true := by
            unfold isTransferAt
            rw [hqtr]
            simp [hm2.2]
          rw [← he]
          simp [htat]
      · exact hndF
    obtain ⟨p0, hp0find, hp02⟩ := find?_snd_of_mem stF.arrival_node_indices tid av harrF
    constructor
    · intro hfnone
      rw [hcharW, hp0find]
      show ((toSt.transfer_node_indices.find? fun q =>
          decide (nodeTime M p0.2 + fp.duration ≤ q.1)).map
          (fun q => (⟨p0.2, q.2, .WalkToStation fp.duration⟩ : Edge))).toList = []
      rw [hp02, hnt, hfnone]
      rfl
    · intro q hfsome
      have h1 : walkEdgesFromTo M av fp.to_station
          = [⟨av, q.2, .WalkToStation fp.duration⟩] := by
        rw [hcharW, hp0find]
        show ((toSt.transfer_node_indices.find? fun qq =>
            decide (nodeTime M p0.2 + fp.duration ≤ qq.1)).map
            (fun qq => (⟨p0.2, qq.2, .WalkToStation fp.duration⟩ : Edge))).toList
          = [⟨av, q.2, .WalkToStation fp.duration⟩]
        rw [hp02, hnt, hfsome]
        rfl
      have hqmem : q ∈ toSt.transfer_node_indices := List.mem_of_find?_eq_some hfsome
      have hqshape : M.graph.nodes[q.2]? = some (.Transfer q.1 fp.to_station) := by
        have := hinv.trOK toSt hm2.1 q hqmem
        rwa [hm2.2] at this
      have hqle : t + fp.duration ≤ q.1 := by
        have := List.find?_some hfsome
        exact of_decide_eq_true this
      refine ⟨h1, hqshape, hqle, ?_⟩
      intro r hr hle
      exact find?_min_of_sorted _ toSt.transfer_node_indices hsorted2 q hfsome r hr
        (decide_eq_true hle)

/-- C2 witness: the claim instantiated on the worked example at the
Arrival node of trip 1 at station B (node 0, time 10). -/
theorem C2_witness :
    (exStations.map Station.id).Nodup ∧
    (∀ t ∈ exTrips, t.to_station ∈ exStations.map Station.id) ∧
    (exFootpaths.map fun fp => (fp.from_station, fp.to_station)).Nodup ∧
    (buildModel exStations exTrips exFootpaths).graph.nodes[0]?
      = some (.Arrival 1 10 "B") ∧
    ((∀ st, getStation (buildModel exStations exTrips exFootpaths) "B" = some st →
      ((st.transfer_node_indices.find? fun q =>
          decide (10 + st.transfer_time ≤ q.1)) = none →
        alightEdgesFrom (buildModel exStations exTrips exFootpaths) 0 = []) ∧
      (∀ q, (st.transfer_node_indices.find? fun q =>
          decide (10 + st.transfer_time ≤ q.1)) = some q →
        alightEdgesFrom (buildModel exStations exTrips exFootpaths) 0
          = [⟨0, q.2, .Alight st.transfer_time⟩] ∧
        (buildModel exStations exTrips exFootpaths).graph.nodes[q.2]?
          = some (.Transfer q.1 "B") ∧
        10 + st.transfer_time ≤ q.1 ∧
        ∀ r ∈ st.transfer_node_indices, 10 + st.transfer_time ≤ r.1 → q.1 ≤ r.1)) ∧
    (∀ fp ∈ exFootpaths, fp.from_station = "B" →
      ∀ toSt, getStation (buildModel exStations exTrips exFootpaths) fp.to_station
        = some toSt →
      ((toSt.transfer_node_indices.find? fun q =>
          decide (10 + fp.duration ≤ q.1)) = none →
        walkEdgesFromTo (buildModel exStations exTrips exFootpaths) 0 fp.to_station
          = []) ∧
      (∀ q, (toSt.transfer_node_indices.find? fun q =>
          decide (10 + fp.duration ≤ q.1)) = some q →
        walkEdgesFromTo (buildModel exStations exTrips exFootpaths) 0 fp.to_station
          = [⟨0, q.2, .WalkToStation fp.duration⟩] ∧
        (buildModel exStations exTrips exFootpaths).graph.nodes[q.2]?
          = some (.Transfer q.1 fp.to_station) ∧
        10 + fp.duration ≤ q.1 ∧
        ∀ r ∈ toSt.transfer_node_indices, 10 + fp.duration ≤ r.1 → q.1 ≤ r.1))) :=
  ⟨by decide, by decide, by decide, by decide,
   C2_alight_walk_unique_earliest exStations exTrips exFootpaths
     (by decide) (by decide) (by decide) 0 1 10 "B" (by decide)⟩

/-- C2 counterexample: footpaths are a plain Vec, so a duplicated B→C
footpath is an admissible input; the builder then emits one Walk edge
per footpath occurrence, giving the Arrival node of trip 1 at B
(node 0) two parallel Walk edges to the Transfer node of the target
station C — the original "at most one Alight/Walk edge" claim fails. -/
theorem C2_counterexample_duplicate_footpath :
    dupFootpathModel.graph.nodes[0]? = some (.Arrival 1 10 "B") ∧
    walkEdgesFromTo dupFootpathModel 0 "C"
      = [⟨0, 14, .WalkToStation 3⟩, ⟨0, 14, .WalkToStation 3⟩] := by
  decide

end MCF
